import Mathlib

/-
Shallow embedding of the news-sentiment / stock-movement pipeline
(modules src/technical.py, src/sentiment.py, src/correlation.py,
src/data_io.py of the repository) together with proofs settling the
frozen claims about it.

Modelling conventions, used throughout:
* Machine floats are modelled as exact rationals; the float NaN is
  modelled as an explicit null value.  A pandas Series is a list of
  cells; a pandas DataFrame is either a generic association list of
  named columns (for the indicator and sentiment-scoring helpers,
  which are polymorphic in the columns they carry) or a typed record
  frame (for the correlation pipeline, whose column names are fixed
  to the defaults used by the repository: date, close, ticker,
  stock).
* External library kernels that are not part of this repository
  (square roots inside std/Pearson computations, the TextBlob and
  VADER scorers, the date-string parser behind pd.to_datetime) enter
  as explicit parameters or as pre-parsed data, so that every claim
  is settled uniformly in them.
-/

namespace NSSM

/-- A cell of a pandas Series: a numeric value, a missing value (NaN /
NaT / None), or a string. -/
inductive Cell where
  | num (q : ℚ)
  | null
  | str (s : String)
deriving DecidableEq, Repr

/-- Numeric view of a cell: `some q` for a numeric cell, `none` otherwise. -/
def Cell.toNum : Cell → Option ℚ
  | .num q => some q
  | _ => none

/-- Wrap an optional rational as a cell (missing becomes null / NaN). -/
def cellOfOpt : Option ℚ → Cell
  | some q => .num q
  | none => .null

/-- A generic DataFrame: an association list of named columns. -/
structure Frame where
  cols : List (String × List Cell)
deriving DecidableEq, Repr

/-- Column names of a frame, in order. -/
def Frame.names (f : Frame) : List String := f.cols.map Prod.fst

/-- Look a column up by name (first match); missing column yields []. -/
def Frame.col (f : Frame) (name : String) : List Cell :=
  (((f.cols.find? (fun c => c.1 = name))).map Prod.snd).getD []

/-- Column assignment `df[name] = v`: overwrite in place when the name
exists, append at the end otherwise (pandas semantics). -/
def Frame.setCol (f : Frame) (name : String) (v : List Cell) : Frame :=
  if f.cols.any (fun c => c.1 = name) then
    ⟨f.cols.map (fun c => if c.1 = name then (name, v) else c)⟩
  else ⟨f.cols ++ [(name, v)]⟩

/-- Number of rows of a frame (length of its first column; 0 when the
frame has no columns). -/
def Frame.nrows (f : Frame) : ℕ :=
  ((f.cols.head?).map (fun c => c.2.length)).getD 0

/-- pandas `df.empty`: true when the frame has no rows. -/
def Frame.isEmpty (f : Frame) : Bool := f.nrows = 0

/-- The window of an index-`i` rolling computation of width `w`:
positions max(0, i-w+1) .. i of the series. -/
def windowSlice (w : ℕ) (xs : List Cell) (i : ℕ) : List Cell :=
  (xs.take (i + 1)).drop (i + 1 - w)

/-- Arithmetic mean of a list of rationals (0 for the empty list; all
call sites guard emptiness). -/
def qMean (xs : List ℚ) : ℚ := xs.sum / xs.length

/-- pandas `Series.rolling(window=w, min_periods=m).mean()`: at each
index, the mean of the non-null values of the width-`w` window ending
there, null when fewer than `m` observations are available. -/
def rollingMean (w m : ℕ) (xs : List Cell) : List Cell :=
  (List.range xs.length).map (fun i =>
    let vals := (windowSlice w xs i).filterMap Cell.toNum
    if m ≤ vals.length ∧ vals ≠ [] then .num (qMean vals) else .null)

/-- Sample variance (ddof = 1) of a list of rationals; call sites guard
lists of length < 2. -/
def qVar (xs : List ℚ) : ℚ :=
  (xs.map (fun x => (x - qMean xs) ^ 2)).sum / (xs.length - 1 : ℚ)

/-- pandas `Series.rolling(window=w, min_periods=m).std()`: sample
standard deviation of the window, null when fewer than `m` (or fewer
than 2, because ddof = 1) observations are available.  The square root
is the library kernel `sq`, passed explicitly. -/
def rollingStd (sq : ℚ → ℚ) (w m : ℕ) (xs : List Cell) : List Cell :=
  (List.range xs.length).map (fun i =>
    let vals := (windowSlice w xs i).filterMap Cell.toNum
    if m ≤ vals.length ∧ 2 ≤ vals.length then .num (sq (qVar vals)) else .null)

/-- pandas `Series.diff()`: elementwise difference with the previous
entry; the first entry, and any pair involving a non-numeric cell,
is null. -/
def diffCells (xs : List Cell) : List Cell :=
  match xs with
  | [] => []
  | _ :: tail =>
      .null :: (xs.zip tail).map (fun p =>
        match p.1.toNum, p.2.toNum with
        | some a, some b => .num (b - a)
        | _, _ => .null)

/-- pandas `Series.clip(lower=0)`: nulls pass through. -/
def clipLower0 (xs : List Cell) : List Cell :=
  xs.map (fun c => match c.toNum with
    | some a => .num (max a 0)
    | none => .null)

/-- pandas `-Series.clip(upper=0)`: nulls pass through. -/
def negClipUpper0 (xs : List Cell) : List Cell :=
  xs.map (fun c => match c.toNum with
    | some a => .num (-(min a 0))
    | none => .null)

/-- pandas `Series.ewm(alpha=a, adjust=False).mean()`: exponentially
weighted mean with recurrence y = (1-a)*y + a*x; a null input emits the
carried mean (null before the first observation) and leaves it
unchanged. -/
def ewmStep (a : ℚ) (carry : Option ℚ) (c : Cell) : Option ℚ × Cell :=
  match c.toNum with
  | none => (carry, cellOfOpt carry)
  | some x =>
      match carry with
      | none => (some x, .num x)
      | some y => (some ((1 - a) * y + a * x), .num ((1 - a) * y + a * x))

/-- Run the exponentially weighted mean over a whole series. -/
def ewmMeanAux (a : ℚ) (carry : Option ℚ) : List Cell → List Cell
  | [] => []
  | c :: cs =>
      let s := ewmStep a carry c
      s.2 :: ewmMeanAux a s.1 cs

/-- pandas `Series.ewm(alpha=a, adjust=False).mean()`. -/
def ewmMean (a : ℚ) (xs : List Cell) : List Cell := ewmMeanAux a none xs

/-- Elementwise difference of two series (null propagates). -/
def subCells (xs ys : List Cell) : List Cell :=
  (xs.zip ys).map (fun p =>
    match p.1.toNum, p.2.toNum with
    | some a, some b => .num (a - b)
    | _, _ => .null)

/-- Elementwise quotient of two series (null propagates; the zero
denominator produces null here, and is unreachable at the one call
site because zero denominators were replaced by null beforehand). -/
def divCells (xs ys : List Cell) : List Cell :=
  (xs.zip ys).map (fun p =>
    match p.1.toNum, p.2.toNum with
    | some a, some b => if b = 0 then .null else .num (a / b)
    | _, _ => .null)

/-- pandas `Series.replace(0, pd.NA)`. -/
def replaceZeroNull (xs : List Cell) : List Cell :=
  xs.map (fun c => if c = .num 0 then .null else c)

/-- pandas `Series.pct_change()`: current over previous minus one; the
first entry is null.  (The zero-denominator and padding corner cases of
pandas floats are irrelevant to every claim and are modelled as null.) -/
def pctChangeCells (xs : List Cell) : List Cell :=
  match xs with
  | [] => []
  | _ :: tail =>
      .null :: (xs.zip tail).map (fun p =>
        match p.1.toNum, p.2.toNum with
        | some a, some b => if a = 0 then .null else .num (b / a - 1)
        | _, _ => .null)

/-- src/technical.py add_moving_average: attach the rolling mean of the
price column as column `ma_<window>` (min_periods = 1). -/
def add_moving_average (f : Frame) (window : ℕ := 5) (price_col : String := "close") : Frame :=
  f.setCol ("ma_" ++ toString window) (rollingMean window 1 (f.col price_col))

/-- src/technical.py add_rsi, average gain: EWMA (alpha = 1/window,
adjust = False) of the positive part of the price differences. -/
def rsiAvgGain (window : ℕ) (xs : List Cell) : List Cell :=
  ewmMean (1 / (window : ℚ)) (clipLower0 (diffCells xs))

/-- src/technical.py add_rsi, average loss: EWMA (alpha = 1/window,
adjust = False) of the negated negative part of the price differences. -/
def rsiAvgLoss (window : ℕ) (xs : List Cell) : List Cell :=
  ewmMean (1 / (window : ℚ)) (negClipUpper0 (diffCells xs))

/-- src/technical.py add_rsi, the series 100 - 100/(1+rs) with null
propagation. -/
def rsiFromRs (rs : List Cell) : List Cell :=
  rs.map (fun c => match c.toNum with
    | some r => .num (100 - 100 / (1 + r))
    | none => .null)

/-- src/technical.py add_rsi: relative strength index of the price
column, attached as column `rsi_<window>`; the zero average loss is
replaced by null before the division. -/
def add_rsi (f : Frame) (window : ℕ := 14) (price_col : String := "close") : Frame :=
  let xs := f.col price_col
  let rs := divCells (rsiAvgGain window xs) (replaceZeroNull (rsiAvgLoss window xs))
  f.setCol ("rsi_" ++ toString window) (rsiFromRs rs)

/-- src/technical.py add_macd (the branch implemented in the
repository itself, taken when the optional `ta` dependency is absent):
EWMA span-based MACD, signal and histogram columns. -/
def add_macd (f : Frame) (price_col : String := "close")
    (fast : ℕ := 12) (slow : ℕ := 26) (signal : ℕ := 9) : Frame :=
  let ema_fast := ewmMean (2 / ((fast : ℚ) + 1)) (f.col price_col)
  let ema_slow := ewmMean (2 / ((slow : ℚ) + 1)) (f.col price_col)
  let macd := subCells ema_fast ema_slow
  let signal_line := ewmMean (2 / ((signal : ℚ) + 1)) macd
  ((f.setCol "macd" macd).setCol "macd_signal" signal_line).setCol
    "macd_hist" (subCells macd signal_line)

/-- src/technical.py add_bollinger_bands (the branch implemented in
the repository itself, taken when the optional `ta` dependency is
absent): rolling mean plus/minus n_std rolling standard deviations
(min_periods = 1, std of a single observation filled with 0).  `sq` is
the library square-root kernel. -/
def add_bollinger_bands (sq : ℚ → ℚ) (f : Frame) (price_col : String := "close")
    (window : ℕ := 20) (n_std : ℚ := 2) : Frame :=
  let rollingVals := f.col price_col
  let mavg := rollingMean window 1 rollingVals
  let std := (rollingStd sq window 1 rollingVals).map
    (fun c => match c.toNum with
      | some a => Cell.num a
      | none => .num 0)
  let high := (mavg.zip std).map (fun p =>
    match p.1.toNum, p.2.toNum with
    | some a, some b => Cell.num (a + n_std * b)
    | _, _ => .null)
  let low := (mavg.zip std).map (fun p =>
    match p.1.toNum, p.2.toNum with
    | some a, some b => Cell.num (a - n_std * b)
    | _, _ => .null)
  ((f.setCol ("bb_mavg_" ++ toString window) mavg).setCol
      ("bb_high_" ++ toString window) high).setCol
    ("bb_low_" ++ toString window) low

/-- src/technical.py add_volatility: rolling standard deviation of the
percent changes, annualized by the square root of 252.  `sq` is the
library square-root kernel. -/
def add_volatility (sq : ℚ → ℚ) (f : Frame) (price_col : String := "close")
    (window : ℕ := 20) : Frame :=
  let ret := pctChangeCells (f.col price_col)
  let vol := (rollingStd sq window window ret).map (fun c =>
    match c.toNum with
    | some a => Cell.num (a * sq 252)
    | none => .null)
  f.setCol ("volatility_" ++ toString window) vol

/-- str(text) applied to a cell, as the sentiment scorers do before
scoring. -/
def Cell.toText : Cell → String
  | .num q => toString q
  | .null => "nan"
  | .str s => s

/-- src/sentiment.py compute_headline_sentiment: attach TextBlob
polarity and subjectivity columns.  The TextBlob scorer is the external
parameter `score` (polarity, subjectivity). -/
def compute_headline_sentiment (score : String → ℚ × ℚ) (f : Frame)
    (text_col : String := "headline") : Frame :=
  if f.isEmpty then
    (f.setCol "polarity" []).setCol "subjectivity" []
  else
    let texts := (f.col text_col).map Cell.toText
    (f.setCol "polarity" (texts.map (fun t => Cell.num (score t).1))).setCol
      "subjectivity" (texts.map (fun t => Cell.num (score t).2))

/-- src/sentiment.py compute_vader_sentiment: attach the four VADER
score columns (neg, neu, pos, compound), named with the given column
name stem.  The VADER analyzer is the external parameter `vader`.  The
column names are derived from the scored rows — the DataFrame built
from the score dicts — so an empty input frame yields a score frame
with no columns, the column-name list is empty, and the assignment
attaches nothing: the frame comes back with its columns unchanged. -/
def compute_vader_sentiment (vader : String → ℚ × ℚ × ℚ × ℚ) (f : Frame)
    (text_col : String := "headline") (stem : String := "vader") : Frame :=
  if ((f.col text_col).map Cell.toText).isEmpty then f
  else
    let texts := (f.col text_col).map Cell.toText
    ((((f.setCol (stem ++ "_neg") (texts.map (fun t => Cell.num (vader t).1))).setCol
        (stem ++ "_neu") (texts.map (fun t => Cell.num (vader t).2.1))).setCol
        (stem ++ "_pos") (texts.map (fun t => Cell.num (vader t).2.2.1))).setCol
        (stem ++ "_compound") (texts.map (fun t => Cell.num (vader t).2.2.2)))

/-- A raw date cell, as found in an input date column before parsing:
either an entry that pd.to_datetime parses to the timestamp `t`
(rationals count days since the epoch, the fractional part being the
time of day), or an entry it cannot parse.  The external date-string
parser is not part of this repository, so its verdict is carried by
the data itself. -/
inductive RawDate where
  | ts (t : ℚ)
  | bad
deriving DecidableEq, Repr

/-- pd.to_datetime(col, errors="coerce"): parseable entries become
timestamps, unparseable entries become null (NaT). -/
def toDatetimeCoerce : RawDate → Option ℚ
  | .ts t => some t
  | .bad => none

/-- Series.dt.date on an optional timestamp: truncation to the
calendar day; null passes through. -/
def dtDate (o : Option ℚ) : Option ℤ := o.map (fun t => ⌊t⌋)

/-- Sort order used by sort_values on a date column: timestamps in
ascending order, unparseable/NaT entries last (the model assumes the
column is datetime-typed, as produced by the repository loaders). -/
def rawDateLeB : RawDate → RawDate → Bool
  | .ts a, .ts b => decide (a ≤ b)
  | .ts _, .bad => true
  | .bad, .ts _ => false
  | .bad, .bad => true

/-- A row of a price frame.  Column names are fixed to the defaults of
the repository (date, close, ticker); the ticker field is meaningful
only when the frame carries its ticker column. -/
structure PriceRow where
  date : RawDate
  close : ℚ
  ticker : String
deriving DecidableEq, Repr

/-- A price DataFrame: rows plus the presence flag of the ticker
column. -/
structure PriceFrame where
  hasTicker : Bool
  rows : List PriceRow
deriving DecidableEq, Repr

/-- compute_daily_returns output: the (sorted) price rows, each with
its daily_return cell. -/
structure ReturnsFrame where
  hasTicker : Bool
  rows : List (PriceRow × Option ℚ)
deriving DecidableEq, Repr

/-- Group key of a price row under groupby(ticker): the ticker when
the column is present, a single shared key otherwise (the whole-frame
pct_change). -/
def priceKey (hasTicker : Bool) (r : PriceRow) : Option String :=
  if hasTicker then some r.ticker else none

/-- df.sort_values("date"): stable sort by date with NaT last.  (pandas
uses an unstable quicksort; ties between equal dates are broken
arbitrarily there and stably here, which no claim depends on.) -/
def sortByDate (l : List PriceRow) : List PriceRow :=
  List.insertionSort (fun a b => rawDateLeB a.date b.date = true) l

/-- groupby(key)[close].pct_change over rows in their current order:
each row yields its close over the close of the nearest earlier row
with the same key, minus one; rows with no earlier key mate yield
null.  `seen` accumulates (key, close) of the rows already passed,
most recent first. -/
def pctChangeRows (key : PriceRow → Option String) :
    List PriceRow → List (Option String × ℚ) → List (PriceRow × Option ℚ)
  | [], _ => []
  | r :: rs, seen =>
      let prev := ((seen.find? (fun p => p.1 = key r))).map Prod.snd
      (r, prev.map (fun p => r.close / p - 1)) ::
        pctChangeRows key rs ((key r, r.close) :: seen)

/-- src/technical.py compute_daily_returns: sort by date, then percent
change of the close column, grouped per ticker when the ticker column
is present. -/
def compute_daily_returns (f : PriceFrame) : ReturnsFrame :=
  ⟨f.hasTicker, pctChangeRows (priceKey f.hasTicker) (sortByDate f.rows) []⟩

/-- A row of an (aggregated) sentiment frame: date, stock ticker
(meaningful only when the frame carries its stock column) and the
values of the sentiment metric columns, parallel to the metric name
list of the frame. -/
structure SRow where
  date : RawDate
  stock : String
  vals : List ℚ
deriving DecidableEq, Repr

/-- A sentiment DataFrame: metric column names, rows, and the presence
flag of the stock column. -/
structure SentFrame where
  hasStock : Bool
  metricNames : List String
  rows : List SRow
deriving DecidableEq, Repr

/-- The column list of a sentiment frame: date, the stock column when
present, then the metric columns. -/
def SentFrame.columns (f : SentFrame) : List String :=
  "date" :: ((if f.hasStock then ["stock"] else []) ++ f.metricNames)

/-- trade_date of a price row: its date parsed with coercion and
truncated to the calendar day. -/
def tradeDate (r : PriceRow) : Option ℤ := dtDate (toDatetimeCoerce r.date)

/-- merge_date of a sentiment row under shift k: its date parsed with
coercion, shifted by k days when k is nonzero (to_timedelta(k, "D")),
then truncated to the calendar day. -/
def sentMergeDate (k : ℤ) (s : SRow) : Option ℤ :=
  dtDate ((toDatetimeCoerce s.date).map (fun t => if k = 0 then t else t + (k : ℚ)))

/-- pd.merge(left, right, left_on, right_on, how="left"): every left
row, paired with each matching right row in order, or with none when no
right row matches. -/
def leftMerge {α β : Type} (L : List α) (R : List β) (m : α → β → Bool) :
    List (α × Option β) :=
  L.flatMap (fun a =>
    let ms := R.filter (m a)
    if ms.isEmpty then [(a, none)] else ms.map (fun b => (a, some b)))

/-- The join condition of align_sentiment_with_returns: equal (possibly
null) merge dates, and equal tickers exactly when the join is also
keyed on ticker.  (pandas merge matches null keys with null keys.) -/
def alignMatch (joinTicker : Bool) (k : ℤ) (p : PriceRow × Option ℚ) (s : SRow) : Bool :=
  decide (tradeDate p.1 = sentMergeDate k s) && (!joinTicker || decide (p.1.ticker = s.stock))

/-- A row of the merged frame produced by align_sentiment_with_returns:
the price side (original timestamp renamed price_timestamp, trade_date
renamed date, ticker, close, daily_return) and the sentiment side
(stock and metric values), null-padded when no sentiment row matched.
The original sentiment date column (date_sentiment) is dropped by the
source. -/
structure MRow where
  price_timestamp : RawDate
  date : Option ℤ
  ticker : String
  close : ℚ
  daily_return : Option ℚ
  sent : Option (String × List ℚ)
deriving DecidableEq, Repr

/-- The merged frame: rows plus presence flags of the ticker column
(from the price side) and of a separate stock column (present only
when the sentiment side carried one that was not renamed into the join
key), and the sentiment metric column names. -/
structure MergedFrame where
  hasTicker : Bool
  hasStock : Bool
  metricNames : List String
  rows : List MRow
deriving DecidableEq, Repr

/-- src/correlation.py align_sentiment_with_returns: compute daily
returns of the price frame, attach trade dates, shift the sentiment
dates by k days when k is nonzero, and left-join the sentiment rows
onto the price rows on trade date — additionally keyed on ticker
exactly when both frames carry their ticker column. -/
def align_sentiment_with_returns (sf : SentFrame) (pf : PriceFrame) (k : ℤ := 0) : MergedFrame :=
  let prices := compute_daily_returns pf
  let joinTicker := pf.hasTicker && sf.hasStock
  ⟨pf.hasTicker, sf.hasStock && !joinTicker, sf.metricNames,
    (leftMerge prices.rows sf.rows (alignMatch joinTicker k)).map (fun pr =>
      { price_timestamp := pr.1.1.date
        date := tradeDate pr.1.1
        ticker := pr.1.1.ticker
        close := pr.1.1.close
        daily_return := pr.1.2
        sent := pr.2.map (fun s => (s.stock, s.vals)) })⟩

/-- Modelled from the spec: the spec sentence behind claim C1 calls the
merge an OUTER join of the price returns with the (possibly
date-shifted) sentiment rows on trade date, keyed on ticker exactly
when both frames carry their ticker column.  An outer join keeps, in
addition to the left-join rows, every unmatched sentiment row
(null-padded on the price side). -/
def specOuterJoin (sf : SentFrame) (pf : PriceFrame) (k : ℤ := 0) :
    List (Option (PriceRow × Option ℚ) × Option SRow) :=
  let prices := compute_daily_returns pf
  let joinTicker := pf.hasTicker && sf.hasStock
  (leftMerge prices.rows sf.rows (alignMatch joinTicker k)).map
    (fun pr => (some pr.1, pr.2)) ++
  (sf.rows.filter (fun s => !(prices.rows.any (fun p => alignMatch joinTicker k p s)))).map
    (fun s => ((none : Option (PriceRow × Option ℚ)), some s))

/-- df[[x, y]].dropna() viewed through the two selected columns: the
pairs of rows in which both entries are non-null. -/
def dropnaPairs (xs ys : List (Option ℚ)) : List (ℚ × ℚ) :=
  (xs.zip ys).filterMap (fun p => match p.1, p.2 with
    | some a, some b => some (a, b)
    | _, _ => none)

/-- Mean of the first components of a pair list. -/
def pearsonMeanX (ps : List (ℚ × ℚ)) : ℚ := qMean (ps.map Prod.fst)

/-- Mean of the second components of a pair list. -/
def pearsonMeanY (ps : List (ℚ × ℚ)) : ℚ := qMean (ps.map Prod.snd)

/-- Centered sum of squares of the first components. -/
def pearsonSxx (ps : List (ℚ × ℚ)) : ℚ :=
  (ps.map (fun p => (p.1 - pearsonMeanX ps) ^ 2)).sum

/-- Centered sum of squares of the second components. -/
def pearsonSyy (ps : List (ℚ × ℚ)) : ℚ :=
  (ps.map (fun p => (p.2 - pearsonMeanY ps) ^ 2)).sum

/-- Centered sum of products. -/
def pearsonSxy (ps : List (ℚ × ℚ)) : ℚ :=
  (ps.map (fun p => (p.1 - pearsonMeanX ps) * (p.2 - pearsonMeanY ps))).sum

/-- The Pearson correlation coefficient as pandas corr computes it on
fully observed pairs: Sxy over the product of the root sums of squares,
null (NaN) when either column is constant (zero denominator, which also
covers fewer than two observations).  `sq` is the square-root kernel
and `co` the embedding of exact rationals into the value field, so the
same definition serves both the idealized real-valued statement and the
executable rational pipeline. -/
def pearsonWith {K : Type} [Field K] (sq co : ℚ → K) (ps : List (ℚ × ℚ)) : Option K :=
  if pearsonSxx ps = 0 ∨ pearsonSyy ps = 0 then none
  else some (co (pearsonSxy ps) / (sq (pearsonSxx ps) * sq (pearsonSyy ps)))

/-- src/correlation.py correlation_between_sentiment_and_returns:
select the sentiment and return columns, drop the rows in which either
is null, return NaN (none) when nothing is left, and the Pearson
correlation of the remaining pairs otherwise. -/
def correlation_between_sentiment_and_returns {K : Type} [Field K] (sq co : ℚ → K)
    (df : Frame) (sentiment_col : String := "avg_polarity")
    (return_col : String := "daily_return") : Option K :=
  let pairs := dropnaPairs ((df.col sentiment_col).map Cell.toNum)
    ((df.col return_col).map Cell.toNum)
  if pairs.isEmpty then none else pearsonWith sq co pairs

/-- Projection of a merged frame onto its numeric columns
(daily_return and the sentiment metrics), used to hand a group of
merged rows to the dataframe-level correlation function exactly as the
source hands the group DataFrame over. -/
def MergedFrame.numFrame (f : MergedFrame) : Frame :=
  ⟨("daily_return", f.rows.map (fun r => cellOfOpt r.daily_return)) ::
    f.metricNames.enum.map (fun p =>
      (p.2, f.rows.map (fun r => cellOfOpt (r.sent.bind (fun s => s.2.get? p.1)))))⟩

/-- The rows of a merged frame restricted to one ticker (one group of
groupby(ticker)). -/
def MergedFrame.restrict (f : MergedFrame) (t : String) : MergedFrame :=
  ⟨f.hasTicker, f.hasStock, f.metricNames, f.rows.filter (fun r => r.ticker = t)⟩

/-- The group keys of groupby(ticker): distinct tickers in ascending
order (pandas groupby sorts keys). -/
def sortedTickers (f : MergedFrame) : List String :=
  List.insertionSort (fun a b => decide (a ≤ b)) ((f.rows.map MRow.ticker).dedup)

/-- A row of the correlations_by_ticker result. -/
structure CorrRow where
  ticker : String
  sentiment_metric : String
  correlation : Option ℚ
  pair_count : ℕ
deriving DecidableEq, Repr

/-- The correlations_by_ticker result: explicit column list plus rows
(pd.DataFrame of an empty row list carries no columns at all). -/
structure CorrFrame where
  columns : List String
  rows : List CorrRow
deriving DecidableEq, Repr

/-- The four column names of the correlations_by_ticker result. -/
def corrFrameCols : List String :=
  ["ticker", "sentiment_metric", "correlation", "pair_count"]

/-- src/correlation.py correlations_by_ticker: align, short-circuit to
the empty four-column frame when the alignment has no rows, then one
row per (ticker group, requested metric present in the columns) with
the group correlation and the count of fully observed pairs.  `sq` is
the square-root kernel of the Pearson computation. -/
def correlations_by_ticker (sq : ℚ → ℚ) (sf : SentFrame) (pf : PriceFrame)
    (sentiment_columns : List String) (k : ℤ := 0) : CorrFrame :=
  let aligned := align_sentiment_with_returns sf pf k
  if aligned.rows.isEmpty then ⟨corrFrameCols, []⟩
  else
    let groups : List (String × MergedFrame) :=
      if aligned.hasTicker then
        (sortedTickers aligned).map (fun t => (t, aligned.restrict t))
      else [("ALL", aligned)]
    let rows := groups.flatMap (fun g =>
      (sentiment_columns.filter (fun met => (g.2.numFrame.names).contains met)).map
        (fun met =>
          { ticker := g.1
            sentiment_metric := met
            correlation :=
              correlation_between_sentiment_and_returns sq id g.2.numFrame met "daily_return"
            pair_count := (dropnaPairs ((g.2.numFrame.col met).map Cell.toNum)
              ((g.2.numFrame.col "daily_return").map Cell.toNum)).length }))
    ⟨if rows.isEmpty then [] else corrFrameCols, rows⟩

/-- A row of the raw (per-headline, scored) news frame that
aggregate_daily_sentiment consumes: date, stock ticker (meaningful only
when the frame carries its stock column), and the values of the score
columns, parallel to the score name list of the frame. -/
structure NewsRow where
  date : RawDate
  stock : String
  scores : List ℚ
deriving DecidableEq, Repr

/-- The scored news frame. -/
structure NewsFrame where
  hasStock : Bool
  scoreNames : List String
  rows : List NewsRow
deriving DecidableEq, Repr

/-- The calendar day of a news row under pd.to_datetime(...,
errors="coerce").dt.date. -/
def newsDay (r : NewsRow) : Option ℤ := dtDate (toDatetimeCoerce r.date)

/-- The groupby key of a news row: its day, plus its stock when the
stock column is present (grouping by day alone otherwise); rows with a
null day carry no key (groupby drops them). -/
def newsKey (hasStock : Bool) (r : NewsRow) : Option (ℤ × String) :=
  (newsDay r).map (fun d => (d, if hasStock then r.stock else ""))

/-- Value of score column `c` in a news row (call sites require the
requested columns to exist in the frame). -/
def scoreAt (names : List String) (r : NewsRow) (c : String) : ℚ :=
  ((((names.zip r.scores)).find? (fun p => p.1 = c)).map Prod.snd).getD 0

/-- Ascending order on (day, stock) group keys. -/
def keyLe (a b : ℤ × String) : Bool :=
  decide (a.1 < b.1) || (decide (a.1 = b.1) && decide (a.2 ≤ b.2))

/-- src/sentiment.py aggregate_daily_sentiment: the empty input
short-circuits to the empty frame with columns date, stock and one
avg_-named column per requested score column; otherwise rows are
grouped by calendar day (plus stock when present), group keys sorted
ascending, and every requested column is averaged per group. -/
def aggregate_daily_sentiment (f : NewsFrame)
    (requested : List String := ["polarity", "subjectivity"]) : SentFrame :=
  if f.rows.isEmpty then ⟨true, requested.map (fun c => "avg_" ++ c), []⟩
  else
    let keys := List.insertionSort (fun a b => keyLe a b = true)
      ((f.rows.filterMap (newsKey f.hasStock)).dedup)
    ⟨f.hasStock, requested.map (fun c => "avg_" ++ c),
      keys.map (fun kk =>
        let grp := f.rows.filter (fun r => newsKey f.hasStock r = some kk)
        ⟨.ts (kk.1 : ℚ), kk.2,
          requested.map (fun c => qMean (grp.map (fun r => scoreAt f.scoreNames r c)))⟩)⟩

/-- A row of the raw news CSV as read_csv delivers it: a raw date, the
headline and publisher (null when missing in the file) and the stock
symbol. -/
structure RawNewsRow where
  date : RawDate
  headline : Option String
  publisher : Option String
  stock : String
deriving DecidableEq, Repr

/-- The raw news frame (the model fixes the date column as present,
which every claim about load_news_data presupposes). -/
structure RawNewsFrame where
  hasStock : Bool
  rows : List RawNewsRow
deriving DecidableEq, Repr

/-- A loaded news row: coerced date, defaulted headline and publisher,
normalized stock symbol. -/
structure NewsIORow where
  date : Option ℚ
  headline : String
  publisher : String
  stock : String
deriving DecidableEq, Repr

/-- The loaded news frame. -/
structure NewsIOFrame where
  hasStock : Bool
  rows : List NewsIORow
deriving DecidableEq, Repr

/-- src/data_io.py load_news_data (after read_csv): coerce the date
column (unparseable entries become null), default missing headlines to
the empty string and missing publishers to "unknown", uppercase and
strip the stock column when present, filter to the requested tickers
when a non-empty collection is given, and filter to the requested date
range (rows with null dates fail both range comparisons). -/
def load_news_data (f : RawNewsFrame) (tickers : Option (List String) := none)
    (start : Option ℚ := none) (fin : Option ℚ := none) : NewsIOFrame :=
  let parsed := f.rows.map (fun r =>
    ({ date := toDatetimeCoerce r.date
       headline := r.headline.getD ""
       publisher := r.publisher.getD "unknown"
       stock := if f.hasStock then r.stock.toUpper.trim else r.stock } : NewsIORow))
  let filtered1 := match tickers with
    | some ts =>
        if f.hasStock && !ts.isEmpty then
          parsed.filter (fun r => (ts.map String.toUpper).contains r.stock)
        else parsed
    | none => parsed
  let filtered2 := match start with
    | some s => filtered1.filter (fun r => match r.date with
        | some t => decide (s ≤ t)
        | none => false)
    | none => filtered1
  let filtered3 := match fin with
    | some e => filtered2.filter (fun r => match r.date with
        | some t => decide (t ≤ e)
        | none => false)
    | none => filtered2
  ⟨f.hasStock, filtered3⟩

/-- Sort order used by sort_values / groupby on a generic cell column:
numbers before strings, nulls last (homogeneous columns in practice). -/
def cellLeB : Cell → Cell → Bool
  | .num a, .num b => decide (a ≤ b)
  | .num _, .str _ => true
  | .num _, .null => true
  | .str _, .num _ => false
  | .str a, .str b => decide (a ≤ b)
  | .str _, .null => true
  | .null, .null => true
  | .null, _ => false

/-- Row selection by index list (null cells pad out-of-range indices,
which well-formed frames never produce). -/
def Frame.selectRows (f : Frame) (idxs : List ℕ) : Frame :=
  ⟨f.cols.map (fun c => (c.1, idxs.map (fun i => c.2.getD i .null)))⟩

/-- df.sort_values("date") on a generic frame: indices stably sorted by
the date column. -/
def Frame.sortValuesDate (f : Frame) : Frame :=
  f.selectRows (List.insertionSort
    (fun i j => cellLeB ((f.col "date").getD i .null) ((f.col "date").getD j .null) = true)
    (List.range f.nrows))

/-- The group keys of groupby(col) on a generic frame: distinct
non-null cells in ascending order. -/
def Frame.groupKeys (f : Frame) (tcol : String) : List Cell :=
  List.insertionSort (fun a b => cellLeB a b = true)
    (((f.col tcol).filter (fun c => c ≠ .null)).dedup)

/-- The rows of a generic frame whose `tcol` cell equals `v`. -/
def Frame.filterRowsByCell (f : Frame) (tcol : String) (v : Cell) : Frame :=
  f.selectRows (((f.col tcol).enum.filter (fun p => p.2 = v)).map Prod.fst)

/-- Series.rolling(window=w, min_periods=w).corr(other): windowed
Pearson correlation, null until w fully observed pairs are available
in the window. -/
def rollingCorrSeries (sq : ℚ → ℚ) (w : ℕ) (xs ys : List Cell) : List Cell :=
  (List.range xs.length).map (fun i =>
    let pairs := dropnaPairs ((windowSlice w xs i).map Cell.toNum)
      ((windowSlice w ys i).map Cell.toNum)
    if w ≤ pairs.length then
      match pearsonWith sq id pairs with
      | some r => Cell.num r
      | none => Cell.null
    else .null)

/-- Column name of the rolling correlation column. -/
def rollCorrName (scol rcol : String) (w : ℕ) : String :=
  "rolling_corr_" ++ scol ++ "_" ++ rcol ++ "_" ++ toString w

/-- The inner _apply of rolling_sentiment_return_corr: order the group
by date and attach the rolling correlation column. -/
def rollApplyGroup (sq : ℚ → ℚ) (scol rcol : String) (w : ℕ) (g : Frame) : Frame :=
  let ordered := g.sortValuesDate
  ordered.setCol (rollCorrName scol rcol w)
    (rollingCorrSeries sq w (ordered.col scol) (ordered.col rcol))

/-- Vertical concatenation of two frames with the same columns. -/
def Frame.concat2 (a b : Frame) : Frame :=
  ⟨a.cols.map (fun c => (c.1, c.2 ++ b.col c.1))⟩

/-- src/correlation.py rolling_sentiment_return_corr: an empty input is
returned as (a copy of) itself; otherwise _apply runs per ticker group
when the ticker column is present (groups concatenated in ascending key
order; no claim depends on the row-order conventions of groupby.apply)
and on the whole frame otherwise. -/
def rolling_sentiment_return_corr (sq : ℚ → ℚ) (f : Frame)
    (sentiment_col : String := "avg_polarity") (return_col : String := "daily_return")
    (ticker_col : String := "ticker") (window : ℕ := 5) : Frame :=
  if f.isEmpty then f
  else if f.names.any (fun c => c = ticker_col) then
    match (f.groupKeys ticker_col).map (fun t =>
        rollApplyGroup sq sentiment_col return_col window (f.filterRowsByCell ticker_col t)) with
    | [] => (f.selectRows []).setCol (rollCorrName sentiment_col return_col window) []
    | g0 :: rest => rest.foldl Frame.concat2 g0
  else rollApplyGroup sq sentiment_col return_col window f

/-! Basic lemmas about the frame and merge primitives, shared by the
claim theorems below. -/

lemma find?_map_overwrite (n : String) (v : List Cell) (l : List (String × List Cell)) :
    (l.map (fun e => if e.1 = n then (n, v) else e)).find? (fun e => e.1 = n) =
      if l.any (fun e => e.1 = n) then some (n, v) else none := by
  induction l with
  | nil => rfl
  | cons c t ih =>
      simp only [List.map_cons, List.any_cons]
      by_cases hc : c.1 = n
      · rw [if_pos hc, List.find?_cons_of_pos _ (by simp)]
        simp [hc]
      · have hd : (decide (c.1 = n)) = false := by simpa using hc
        rw [if_neg hc, List.find?_cons_of_neg _ (by simpa using hc), ih]
        simp only [hd, Bool.false_or]

lemma find?_map_overwrite_ne (n : String) (v : List Cell) (c : String) (hc : c ≠ n)
    (l : List (String × List Cell)) :
    (l.map (fun e => if e.1 = n then (n, v) else e)).find? (fun e => e.1 = c) =
      l.find? (fun e => e.1 = c) := by
  have hnc : ¬ n = c := fun hh => hc hh.symm
  induction l with
  | nil => rfl
  | cons e t ih =>
      simp only [List.map_cons]
      by_cases he : e.1 = n
      · rw [if_pos he, List.find?_cons_of_neg _ (by simpa using hnc),
          List.find?_cons_of_neg _ (by simpa [he] using hnc), ih]
      · rw [if_neg he]
        by_cases hec : e.1 = c
        · rw [List.find?_cons_of_pos _ (by simpa using hec),
            List.find?_cons_of_pos _ (by simpa using hec)]
        · rw [List.find?_cons_of_neg _ (by simpa using hec),
            List.find?_cons_of_neg _ (by simpa using hec), ih]

/-- Setting a column and reading it back returns the assigned values. -/
lemma Frame.col_setCol_self (f : Frame) (n : String) (v : List Cell) :
    (f.setCol n v).col n = v := by
  unfold Frame.setCol
  by_cases h : f.cols.any (fun e => e.1 = n)
  · rw [if_pos h]
    unfold Frame.col
    rw [find?_map_overwrite, if_pos h]
    rfl
  · rw [if_neg h]
    unfold Frame.col
    have hnone : f.cols.find? (fun e => decide (e.1 = n)) = none := by
      rw [List.find?_eq_none]
      intro x hx
      by_contra hcon
      exact h (List.any_eq_true.mpr ⟨x, hx, by simpa using hcon⟩)
    rw [List.find?_append, hnone, Option.none_or,
      List.find?_cons_of_pos _ (by simp)]
    rfl

/-- Setting one column leaves every other column unchanged. -/
lemma Frame.col_setCol_ne (f : Frame) (n c : String) (v : List Cell) (hc : c ≠ n) :
    (f.setCol n v).col c = f.col c := by
  have hnc : ¬ n = c := fun hh => hc hh.symm
  unfold Frame.setCol
  by_cases h : f.cols.any (fun e => e.1 = n)
  · rw [if_pos h]
    unfold Frame.col
    rw [find?_map_overwrite_ne n v c hc]
  · rw [if_neg h]
    unfold Frame.col
    rw [List.find?_append, List.find?_cons_of_neg _ (by simpa using hnc)]
    simp

/-- Names after overwriting an existing column are unchanged; names
after appending a fresh column gain exactly that name at the end. -/
lemma Frame.names_setCol (f : Frame) (n : String) (v : List Cell) :
    (f.setCol n v).names =
      if f.cols.any (fun e => e.1 = n) then f.names else f.names ++ [n] := by
  unfold Frame.setCol
  by_cases h : f.cols.any (fun e => e.1 = n)
  · rw [if_pos h, if_pos h]
    unfold Frame.names
    rw [List.map_map]
    apply List.map_congr_left
    intro e he
    by_cases hen : e.1 = n
    · simp [hen]
    · simp [hen]
  · rw [if_neg h, if_neg h]
    unfold Frame.names
    simp

/-- Membership of a name in the column list and the `any` test used by
setCol agree. -/
lemma Frame.any_name_iff (f : Frame) (n : String) :
    f.cols.any (fun e => e.1 = n) = true ↔ n ∈ f.names := by
  rw [List.any_eq_true]
  constructor
  · rintro ⟨e, he, hp⟩
    exact List.mem_map.mpr ⟨e, he, of_decide_eq_true hp⟩
  · intro hn
    rcases List.mem_map.mp hn with ⟨e, he, hp⟩
    exact ⟨e, he, decide_eq_true hp⟩

/-- Every left row survives a left merge (null-padded when unmatched). -/
lemma leftMerge_exists {α β : Type} (L : List α) (R : List β) (m : α → β → Bool)
    (a : α) (ha : a ∈ L) : ∃ b, (a, b) ∈ leftMerge L R m := by
  unfold leftMerge
  by_cases h : (R.filter (m a)).isEmpty
  · exact ⟨none, List.mem_flatMap.mpr ⟨a, ha, by simp [h]⟩⟩
  · rcases hne : R.filter (m a) with _ | ⟨b, bs⟩
    · rw [hne] at h; simp at h
    · exact ⟨some b, List.mem_flatMap.mpr ⟨a, ha, by simp [hne]⟩⟩

/-- C4: empty inputs short-circuit to empty results:
aggregate_daily_sentiment of a rowless frame is the rowless frame with
columns date, stock and one avg_-named column per requested score
column; correlations_by_ticker is the rowless four-column frame
(ticker, sentiment_metric, correlation, pair_count) whenever the
alignment yields no rows; and rolling_sentiment_return_corr returns an
empty input unchanged (a copy in the source). -/
theorem C4_empty_inputs_short_circuit :
    (∀ (f : NewsFrame) (requested : List String), f.rows = [] →
        aggregate_daily_sentiment f requested =
          ⟨true, requested.map (fun c => "avg_" ++ c), []⟩ ∧
        (aggregate_daily_sentiment f requested).columns =
          "date" :: "stock" :: requested.map (fun c => "avg_" ++ c))
    ∧ (∀ (sq : ℚ → ℚ) (sf : SentFrame) (pf : PriceFrame) (cols : List String) (k : ℤ),
        (align_sentiment_with_returns sf pf k).rows = [] →
        correlations_by_ticker sq sf pf cols k = ⟨corrFrameCols, []⟩)
    ∧ (∀ (sq : ℚ → ℚ) (f : Frame) (scol rcol tcol : String) (w : ℕ),
        f.isEmpty = true →
        rolling_sentiment_return_corr sq f scol rcol tcol w = f) := by
  refine ⟨?_, ?_, ?_⟩
  · intro f requested hf
    constructor
    · simp [aggregate_daily_sentiment, hf]
    · simp [aggregate_daily_sentiment, hf, SentFrame.columns]
  · intro sq sf pf cols k h
    simp [correlations_by_ticker, h]
  · intro sq f scol rcol tcol w h
    simp [rolling_sentiment_return_corr, h]

/-- C4 witness: the short-circuits evaluated at concrete empty inputs. -/
theorem C4_empty_inputs_short_circuit_witness :
    ((⟨false, ["polarity"], []⟩ : NewsFrame).rows = [] ∧
      aggregate_daily_sentiment ⟨false, ["polarity"], []⟩ ["polarity"] =
        ⟨true, ["avg_polarity"], []⟩) ∧
    ((align_sentiment_with_returns ⟨false, [], []⟩ ⟨false, []⟩ 0).rows = [] ∧
      correlations_by_ticker id ⟨false, [], []⟩ ⟨false, []⟩ [] 0 = ⟨corrFrameCols, []⟩) ∧
    ((⟨[]⟩ : Frame).isEmpty = true ∧
      rolling_sentiment_return_corr id ⟨[]⟩ "a" "b" "t" 5 = ⟨[]⟩) := by
  refine ⟨⟨rfl, ?_⟩, ⟨rfl, ?_⟩, ⟨rfl, ?_⟩⟩
  · exact (C4_empty_inputs_short_circuit.1 ⟨false, ["polarity"], []⟩ ["polarity"] rfl).1
  · exact C4_empty_inputs_short_circuit.2.1 id ⟨false, [], []⟩ ⟨false, []⟩ [] 0 rfl
  · exact C4_empty_inputs_short_circuit.2.2 id ⟨[]⟩ "a" "b" "t" 5 rfl

/-- C5: malformed dates become null: load_news_data maps every date
entry through the coercing parser (so unparseable entries come out
null, and with no filters the rows all survive with their coerced
dates); aggregate_daily_sentiment gives rows with unparseable dates a
null day (so an all-malformed input completes with an empty-row result
instead of raising); and align_sentiment_with_returns turns
unparseable price and sentiment dates into null trade/merge dates
while still completing the merge, the bad-dated price rows appearing
in the output with a null date. -/
theorem C5_malformed_dates_become_null :
    (∀ (f : RawNewsFrame),
        (load_news_data f none none none).rows.map NewsIORow.date =
          f.rows.map (fun r => toDatetimeCoerce r.date))
    ∧ toDatetimeCoerce RawDate.bad = none
    ∧ (∀ (f : NewsFrame) (r : NewsRow), r ∈ f.rows → r.date = RawDate.bad →
        newsDay r = none ∧ newsKey f.hasStock r = none)
    ∧ (∀ (f : NewsFrame) (requested : List String), f.rows ≠ [] →
        (∀ r ∈ f.rows, r.date = RawDate.bad) →
        aggregate_daily_sentiment f requested =
          ⟨f.hasStock, requested.map (fun c => "avg_" ++ c), []⟩)
    ∧ (∀ (p : PriceRow), p.date = RawDate.bad → tradeDate p = none)
    ∧ (∀ (s : SRow) (k : ℤ), s.date = RawDate.bad → sentMergeDate k s = none)
    ∧ (∀ (sf : SentFrame) (pf : PriceFrame) (k : ℤ) (pr : PriceRow × Option ℚ),
        pr ∈ (compute_daily_returns pf).rows → pr.1.date = RawDate.bad →
        ∃ r ∈ (align_sentiment_with_returns sf pf k).rows,
          r.price_timestamp = RawDate.bad ∧ r.date = none) := by
  refine ⟨?_, rfl, ?_, ?_, ?_, ?_, ?_⟩
  · intro f
    simp [load_news_data]
  · intro f r _ hbad
    constructor
    · simp [newsDay, hbad, toDatetimeCoerce, dtDate]
    · simp [newsKey, newsDay, hbad, toDatetimeCoerce, dtDate]
  · intro f requested hne hall
    have hempty : f.rows.isEmpty = false := by
      cases hr : f.rows with
      | nil => exact absurd hr hne
      | cons a t => rfl
    have hkeys : f.rows.filterMap (newsKey f.hasStock) = [] := by
      rw [List.filterMap_eq_nil_iff]
      intro r hr
      simp [newsKey, newsDay, hall r hr, toDatetimeCoerce, dtDate]
    unfold aggregate_daily_sentiment
    rw [if_neg (by simp [hempty])]
    rw [hkeys]
    rfl
  · intro p hbad
    simp [tradeDate, hbad, toDatetimeCoerce, dtDate]
  · intro s k hbad
    simp [sentMergeDate, hbad, toDatetimeCoerce, dtDate]
  · intro sf pf k pr hmem hbad
    obtain ⟨b, hb⟩ := leftMerge_exists (compute_daily_returns pf).rows sf.rows
      (alignMatch (pf.hasTicker && sf.hasStock) k) pr hmem
    refine ⟨⟨pr.1.date, tradeDate pr.1, pr.1.ticker, pr.1.close, pr.2,
      b.map (fun s => (s.stock, s.vals))⟩, ?_, ?_, ?_⟩
    · unfold align_sentiment_with_returns
      exact List.mem_map.mpr ⟨(pr, b), hb, rfl⟩
    · exact hbad
    · simp [tradeDate, hbad, toDatetimeCoerce, dtDate]

/-- C5 witness: the coercions evaluated at concrete malformed inputs. -/
theorem C5_malformed_dates_become_null_witness :
    ((⟨RawDate.bad, "A", [1]⟩ : NewsRow) ∈
        ([⟨RawDate.bad, "A", [1]⟩] : List NewsRow) ∧
      newsKey true ⟨RawDate.bad, "A", [1]⟩ = none) ∧
    ((⟨true, ["polarity"], [⟨RawDate.bad, "A", [1]⟩]⟩ : NewsFrame).rows ≠ [] ∧
      aggregate_daily_sentiment ⟨true, ["polarity"], [⟨RawDate.bad, "A", [1]⟩]⟩
        ["polarity"] = ⟨true, ["avg_polarity"], []⟩) ∧
    ((⟨RawDate.bad, 7, "T"⟩ : PriceRow).date = RawDate.bad ∧
      tradeDate ⟨RawDate.bad, 7, "T"⟩ = none) ∧
    (sentMergeDate 3 ⟨RawDate.bad, "T", [1]⟩ = none) ∧
    ((⟨RawDate.bad, 7, "T"⟩, (none : Option ℚ)) ∈
        (compute_daily_returns ⟨true, [⟨RawDate.bad, 7, "T"⟩]⟩).rows ∧
      ∃ r ∈ (align_sentiment_with_returns ⟨true, [], []⟩
          ⟨true, [⟨RawDate.bad, 7, "T"⟩]⟩ 0).rows,
        r.price_timestamp = RawDate.bad ∧ r.date = none) := by
  refine ⟨⟨?_, ?_⟩, ⟨?_, ?_⟩, ⟨rfl, ?_⟩, ?_, ⟨?_, ?_⟩⟩
  · exact List.mem_singleton.mpr rfl
  · exact (C5_malformed_dates_become_null.2.2.1 ⟨true, ["polarity"], [⟨RawDate.bad, "A", [1]⟩]⟩
      ⟨RawDate.bad, "A", [1]⟩ (List.mem_singleton.mpr rfl) rfl).2
  · intro h; exact List.noConfusion h
  · exact C5_malformed_dates_become_null.2.2.2.1
      ⟨true, ["polarity"], [⟨RawDate.bad, "A", [1]⟩]⟩ ["polarity"]
      (fun h => List.noConfusion h)
      (fun r hr => by rw [List.mem_singleton.mp hr])
  · exact C5_malformed_dates_become_null.2.2.2.2.1 ⟨RawDate.bad, 7, "T"⟩ rfl
  · exact C5_malformed_dates_become_null.2.2.2.2.2.1 ⟨RawDate.bad, "T", [1]⟩ 3 rfl
  · show _ ∈ pctChangeRows _ (sortByDate [⟨RawDate.bad, 7, "T"⟩]) []
    simp [sortByDate, pctChangeRows, List.insertionSort]
  · exact C5_malformed_dates_become_null.2.2.2.2.2.2 ⟨true, [], []⟩
      ⟨true, [⟨RawDate.bad, 7, "T"⟩]⟩ 0 (⟨RawDate.bad, 7, "T"⟩, none)
      (by
        show _ ∈ pctChangeRows _ (sortByDate [⟨RawDate.bad, 7, "T"⟩]) []
        simp [sortByDate, pctChangeRows, List.insertionSort]) rfl

/-- The merge date of a sentiment row with a parseable date under
shift k is its calendar day plus k (for k = 0 the source skips the
shift; the result is the unshifted day either way). -/
lemma sentMergeDate_ts (k : ℤ) (s : SRow) (t : ℚ) (h : s.date = RawDate.ts t) :
    sentMergeDate k s = some (⌊t⌋ + k) := by
  unfold sentMergeDate
  rw [h]
  by_cases hk : k = 0
  · simp [toDatetimeCoerce, dtDate, hk]
  · simp only [toDatetimeCoerce, dtDate, if_neg hk, Option.map_some]
    simp [Int.floor_add_int]

/-- The join condition of the alignment, spelled out: equal trade and
merge dates, and equal tickers exactly when the join is keyed on
ticker. -/
lemma alignMatch_iff (joinTicker : Bool) (k : ℤ) (p : PriceRow × Option ℚ) (s : SRow) :
    alignMatch joinTicker k p s = true ↔
      (tradeDate p.1 = sentMergeDate k s ∧ (joinTicker = true → p.1.ticker = s.stock)) := by
  cases joinTicker with
  | false => simp [alignMatch]
  | true => simp [alignMatch]

/-- C3: the optional time shift: under shift k a sentiment row whose
date parses to timestamp t — calendar day ⌊t⌋ — carries merge date
⌊t⌋ + k, so it matches exactly the price rows whose trade date equals
its day plus k days; with k = 0 dates are matched unshifted; and
correlations_by_ticker passes the same shift through to the alignment
(its output depends on its inputs only through that alignment). -/
theorem C3_sentiment_shift_days :
    (∀ (k : ℤ) (s : SRow) (t : ℚ), s.date = RawDate.ts t →
        sentMergeDate k s = some (⌊t⌋ + k))
    ∧ (∀ (s : SRow), sentMergeDate 0 s = dtDate (toDatetimeCoerce s.date))
    ∧ (∀ (joinTicker : Bool) (k : ℤ) (p : PriceRow × Option ℚ) (s : SRow) (t : ℚ),
        s.date = RawDate.ts t →
        (alignMatch joinTicker k p s = true ↔
          (tradeDate p.1 = some (⌊t⌋ + k) ∧
            (joinTicker = true → p.1.ticker = s.stock))))
    ∧ (∀ (sq : ℚ → ℚ) (sf sf2 : SentFrame) (pf pf2 : PriceFrame)
        (cols : List String) (k k2 : ℤ),
        align_sentiment_with_returns sf pf k = align_sentiment_with_returns sf2 pf2 k2 →
        correlations_by_ticker sq sf pf cols k = correlations_by_ticker sq sf2 pf2 cols k2) := by
  refine ⟨sentMergeDate_ts, ?_, ?_, ?_⟩
  · intro s
    unfold sentMergeDate
    simp
  · intro joinTicker k p s t hs
    rw [alignMatch_iff, sentMergeDate_ts k s t hs]
  · intro sq sf sf2 pf pf2 cols k k2 h
    unfold correlations_by_ticker
    rw [h]

/-- C3 witness: the shift evaluated at a concrete sentiment row with a
fractional timestamp, and the pass-through at concrete frames. -/
theorem C3_sentiment_shift_days_witness :
    ((⟨RawDate.ts (3 / 2), "T", [1]⟩ : SRow).date = RawDate.ts (3 / 2) ∧
      sentMergeDate 2 ⟨RawDate.ts (3 / 2), "T", [1]⟩ = some (⌊(3 / 2 : ℚ)⌋ + 2)) ∧
    (sentMergeDate 0 ⟨RawDate.ts (3 / 2), "T", [1]⟩ =
      dtDate (toDatetimeCoerce (RawDate.ts (3 / 2)))) ∧
    (alignMatch true 2 (⟨RawDate.ts (7 / 2), 5, "T"⟩, none) ⟨RawDate.ts (3 / 2), "T", [1]⟩ = true ↔
      (tradeDate ⟨RawDate.ts (7 / 2), 5, "T"⟩ = some (⌊(3 / 2 : ℚ)⌋ + 2) ∧
        (true = true → (⟨RawDate.ts (7 / 2), 5, "T"⟩ : PriceRow).ticker =
          (⟨RawDate.ts (3 / 2), "T", [1]⟩ : SRow).stock))) ∧
    (correlations_by_ticker id ⟨true, [], []⟩ ⟨true, []⟩ [] 1 =
      correlations_by_ticker id ⟨true, [], []⟩ ⟨true, []⟩ [] 1) := by
  refine ⟨⟨rfl, ?_⟩, ?_, ?_, ?_⟩
  · exact C3_sentiment_shift_days.1 2 ⟨RawDate.ts (3 / 2), "T", [1]⟩ (3 / 2) rfl
  · exact C3_sentiment_shift_days.2.1 ⟨RawDate.ts (3 / 2), "T", [1]⟩
  · exact C3_sentiment_shift_days.2.2.1 true 2 (⟨RawDate.ts (7 / 2), 5, "T"⟩, none)
      ⟨RawDate.ts (3 / 2), "T", [1]⟩ (3 / 2) rfl
  · exact C3_sentiment_shift_days.2.2.2 id ⟨true, [], []⟩ ⟨true, [], []⟩
      ⟨true, []⟩ ⟨true, []⟩ [] 1 1 rfl

/-- C1 (amended): the date-alignment/merge logic is a single
conditional LEFT join with a date shift (not a full outer join): every
price-return row appears, paired with each (possibly date-shifted)
sentiment row whose merge date equals its trade date — the key
additionally including the ticker exactly when both frames carry their
ticker column — and null-padded when no sentiment row matches;
unmatched sentiment rows are dropped. -/
theorem C1_alignment_is_conditional_left_join :
    (∀ (sf : SentFrame) (pf : PriceFrame) (k : ℤ),
      (align_sentiment_with_returns sf pf k).rows =
        (compute_daily_returns pf).rows.flatMap (fun p =>
          let ms := sf.rows.filter (alignMatch (pf.hasTicker && sf.hasStock) k p)
          if ms.isEmpty then
            [⟨p.1.date, tradeDate p.1, p.1.ticker, p.1.close, p.2, none⟩]
          else ms.map (fun s =>
            ⟨p.1.date, tradeDate p.1, p.1.ticker, p.1.close, p.2, some (s.stock, s.vals)⟩)))
    ∧ (∀ (joinTicker : Bool) (k : ℤ) (p : PriceRow × Option ℚ) (s : SRow),
        alignMatch joinTicker k p s = true ↔
          (tradeDate p.1 = sentMergeDate k s ∧
            (joinTicker = true → p.1.ticker = s.stock))) := by
  refine ⟨?_, alignMatch_iff⟩
  intro sf pf k
  unfold align_sentiment_with_returns leftMerge
  dsimp only
  rw [List.map_flatMap]
  apply congrArg
  funext p
  by_cases h : (sf.rows.filter (alignMatch (pf.hasTicker && sf.hasStock) k p)).isEmpty = true
  · rw [if_pos h, if_pos h]
    rfl
  · rw [if_neg h, if_neg h, List.map_map]
    rfl

/-- C1 counterexample: the claim calls the merge an OUTER join, but the
function performs a left join.  At this input the single sentiment row
(day 5) matches no price trade date (day 0): the outer join required by
the claim has two rows, one of them carrying the sentiment row
null-padded on the price side, while the produced frame has exactly one
row and drops the sentiment row entirely. -/
theorem C1_outer_join_counterexample :
    (align_sentiment_with_returns ⟨false, ["avg_polarity"], [⟨RawDate.ts 5, "A", [1]⟩]⟩
        ⟨false, [⟨RawDate.ts 0, 10, ""⟩]⟩ 0).rows.length = 1 ∧
    (∀ r ∈ (align_sentiment_with_returns ⟨false, ["avg_polarity"], [⟨RawDate.ts 5, "A", [1]⟩]⟩
        ⟨false, [⟨RawDate.ts 0, 10, ""⟩]⟩ 0).rows, r.sent = none) ∧
    (specOuterJoin ⟨false, ["avg_polarity"], [⟨RawDate.ts 5, "A", [1]⟩]⟩
        ⟨false, [⟨RawDate.ts 0, 10, ""⟩]⟩ 0).length = 2 ∧
    ((none : Option (PriceRow × Option ℚ)), some (⟨RawDate.ts 5, "A", [1]⟩ : SRow)) ∈
      specOuterJoin ⟨false, ["avg_polarity"], [⟨RawDate.ts 5, "A", [1]⟩]⟩
        ⟨false, [⟨RawDate.ts 0, 10, ""⟩]⟩ 0 := by
  have hmatch : alignMatch false 0 ((⟨RawDate.ts 0, 10, ""⟩ : PriceRow), (none : Option ℚ))
      ⟨RawDate.ts 5, "A", [1]⟩ = false := by
    rw [Bool.eq_false_iff]
    intro hcon
    rcases (alignMatch_iff false 0 _ _).mp hcon with ⟨hdate, -⟩
    rw [sentMergeDate_ts 0 ⟨RawDate.ts 5, "A", [1]⟩ 5 rfl] at hdate
    simp only [tradeDate, toDatetimeCoerce, dtDate, Option.map_some, Option.some_inj] at hdate
    norm_num at hdate
  have hrows : (compute_daily_returns ⟨false, [⟨RawDate.ts 0, 10, ""⟩]⟩).rows =
      [((⟨RawDate.ts 0, 10, ""⟩ : PriceRow), (none : Option ℚ))] := rfl
  refine ⟨?_, ?_, ?_, ?_⟩
  · unfold align_sentiment_with_returns leftMerge
    dsimp only
    rw [hrows]
    simp [hmatch]
  · intro r hr
    unfold align_sentiment_with_returns leftMerge at hr
    dsimp only at hr
    rw [hrows] at hr
    simp [hmatch] at hr
    rw [hr]
  · unfold specOuterJoin leftMerge
    dsimp only
    rw [hrows]
    simp [hmatch]
  · unfold specOuterJoin leftMerge
    dsimp only
    rw [hrows]
    simp [hmatch]

/-- The two-column frame holding exactly the given fully observed
pairs, used to state that the correlation is computed over exactly the
rows in which both selected columns are non-null. -/
def pairFrame (scol rcol : String) (ps : List (ℚ × ℚ)) : Frame :=
  ⟨[(scol, ps.map (fun p => Cell.num p.1)), (rcol, ps.map (fun p => Cell.num p.2))]⟩

lemma pairFrame_col_left (scol rcol : String) (ps : List (ℚ × ℚ)) :
    (pairFrame scol rcol ps).col scol = ps.map (fun p => Cell.num p.1) := by
  unfold pairFrame Frame.col
  rw [List.find?_cons_of_pos _ (by simp)]
  rfl

lemma pairFrame_col_right (scol rcol : String) (h : scol ≠ rcol) (ps : List (ℚ × ℚ)) :
    (pairFrame scol rcol ps).col rcol = ps.map (fun p => Cell.num p.2) := by
  unfold pairFrame Frame.col
  rw [List.find?_cons_of_neg _ (by simpa using h),
    List.find?_cons_of_pos _ (by simp)]
  rfl

/-- Dropping nulls from two parallel fully observed columns returns the
pairs themselves. -/
lemma dropnaPairs_all_some (ps : List (ℚ × ℚ)) :
    dropnaPairs (ps.map (fun p => some p.1)) (ps.map (fun p => some p.2)) = ps := by
  unfold dropnaPairs
  rw [List.zip_map', List.filterMap_map]
  have : ∀ p : ℚ × ℚ, ((fun q : Option ℚ × Option ℚ =>
      match q.1, q.2 with
      | some a, some b => some (a, b)
      | _, _ => none) ∘ fun x => (some x.1, some x.2)) p = some p := by
    intro p
    rfl
  rw [List.filterMap_congr (fun p _ => this p)]
  exact List.filterMap_some ps

/-- C2: correlation_between_sentiment_and_returns (with the genuine
real square root as the library kernel) returns the Pearson
correlation coefficient of the sentiment column against the return
column, computed over exactly the rows in which both values are
non-null — the result coincides with the correlation of the frame
holding just those fully observed rows — and when no such row exists
it returns NaN (none) rather than raising. -/
theorem C2_pearson_correlation_nonnull_rows :
    ∀ (df : Frame) (scol rcol : String), scol ≠ rcol →
      (let pairs := dropnaPairs ((df.col scol).map Cell.toNum) ((df.col rcol).map Cell.toNum)
       (pairs = [] →
          correlation_between_sentiment_and_returns (fun q => Real.sqrt (q : ℝ))
            (fun q => (q : ℝ)) df scol rcol = none) ∧
       correlation_between_sentiment_and_returns (fun q => Real.sqrt (q : ℝ))
            (fun q => (q : ℝ)) df scol rcol =
          correlation_between_sentiment_and_returns (fun q => Real.sqrt (q : ℝ))
            (fun q => (q : ℝ)) (pairFrame scol rcol pairs) scol rcol ∧
       (pairs ≠ [] →
          correlation_between_sentiment_and_returns (fun q => Real.sqrt (q : ℝ))
            (fun q => (q : ℝ)) df scol rcol =
            pearsonWith (fun q => Real.sqrt (q : ℝ)) (fun q => (q : ℝ)) pairs)) := by
  intro df scol rcol hne
  refine ⟨?_, ?_, ?_⟩
  · intro h
    unfold correlation_between_sentiment_and_returns
    rw [if_pos (by simpa [List.isEmpty_iff] using h)]
  · have hpairs : dropnaPairs
        (((pairFrame scol rcol (dropnaPairs ((df.col scol).map Cell.toNum)
          ((df.col rcol).map Cell.toNum))).col scol).map Cell.toNum)
        (((pairFrame scol rcol (dropnaPairs ((df.col scol).map Cell.toNum)
          ((df.col rcol).map Cell.toNum))).col rcol).map Cell.toNum) =
        dropnaPairs ((df.col scol).map Cell.toNum) ((df.col rcol).map Cell.toNum) := by
      rw [pairFrame_col_left, pairFrame_col_right scol rcol hne,
        List.map_map, List.map_map]
      exact dropnaPairs_all_some _
    unfold correlation_between_sentiment_and_returns
    rw [hpairs]
  · intro h
    unfold correlation_between_sentiment_and_returns
    rw [if_neg (by simpa [List.isEmpty_iff] using h)]

/-- C2 witness: the correlation evaluated at a concrete three-row frame
with one null sentiment entry. -/
theorem C2_pearson_correlation_nonnull_rows_witness :
    ("s" : String) ≠ "r" ∧
    (let pairs := dropnaPairs
        ((Frame.col ⟨[("s", [Cell.num 0, Cell.num 1, Cell.null]),
          ("r", [Cell.num 0, Cell.num 1, Cell.num 5])]⟩ "s").map Cell.toNum)
        ((Frame.col ⟨[("s", [Cell.num 0, Cell.num 1, Cell.null]),
          ("r", [Cell.num 0, Cell.num 1, Cell.num 5])]⟩ "r").map Cell.toNum)
     (pairs = [] →
        correlation_between_sentiment_and_returns (fun q => Real.sqrt (q : ℝ))
          (fun q => (q : ℝ)) ⟨[("s", [Cell.num 0, Cell.num 1, Cell.null]),
            ("r", [Cell.num 0, Cell.num 1, Cell.num 5])]⟩ "s" "r" = none) ∧
     correlation_between_sentiment_and_returns (fun q => Real.sqrt (q : ℝ))
          (fun q => (q : ℝ)) ⟨[("s", [Cell.num 0, Cell.num 1, Cell.null]),
            ("r", [Cell.num 0, Cell.num 1, Cell.num 5])]⟩ "s" "r" =
        correlation_between_sentiment_and_returns (fun q => Real.sqrt (q : ℝ))
          (fun q => (q : ℝ)) (pairFrame "s" "r" pairs) "s" "r" ∧
     (pairs ≠ [] →
        correlation_between_sentiment_and_returns (fun q => Real.sqrt (q : ℝ))
          (fun q => (q : ℝ)) ⟨[("s", [Cell.num 0, Cell.num 1, Cell.null]),
            ("r", [Cell.num 0, Cell.num 1, Cell.num 5])]⟩ "s" "r" =
          pearsonWith (fun q => Real.sqrt (q : ℝ)) (fun q => (q : ℝ)) pairs)) :=
  ⟨by decide,
    C2_pearson_correlation_nonnull_rows
      ⟨[("s", [Cell.num 0, Cell.num 1, Cell.null]),
        ("r", [Cell.num 0, Cell.num 1, Cell.num 5])]⟩ "s" "r" (by decide)⟩

/-- A news row carries group key kk exactly when its parsed day is
kk.1 and — with a stock column — its stock is kk.2 (without one the
key's stock slot is the shared placeholder). -/
lemma newsKey_eq_some_iff (hs : Bool) (r : NewsRow) (kd : ℤ) (ks : String) :
    newsKey hs r = some (kd, ks) ↔
      (newsDay r = some kd ∧ (if hs then r.stock = ks else ks = "")) := by
  unfold newsKey
  cases hnd : newsDay r with
  | none => simp
  | some d0 =>
      simp only [Option.map_some, Option.some_inj, Prod.ext_iff]
      cases hs with
      | true => simp
      | false => simp [eq_comm]

/-- The rows of one aggregation group, rewritten from the key-based
filter to the day-and-stock filter of the claim. -/
lemma agg_group_filter_eq (f : NewsFrame) (kd : ℤ) (ks : String)
    (hks : f.hasStock = false → ks = "") :
    f.rows.filter (fun r => newsKey f.hasStock r = some (kd, ks)) =
      f.rows.filter (fun r => decide (newsDay r = some kd) &&
        (if f.hasStock then decide (r.stock = ks) else true)) := by
  apply List.filter_congr
  intro r _
  rw [Bool.eq_iff_iff]
  cases hfs : f.hasStock with
  | true =>
      simp only [decide_eq_true_eq, Bool.and_eq_true, if_true]
      rw [newsKey_eq_some_iff]
      simp
  | false =>
      simp only [decide_eq_true_eq, Bool.and_true, if_false]
      rw [newsKey_eq_some_iff]
      simp [hks hfs]

/-- Membership in the sorted, deduplicated key list of the aggregation
is membership among the keys of the input rows. -/
lemma agg_mem_keys (f : NewsFrame) (kk : ℤ × String) :
    kk ∈ List.insertionSort (fun a b => keyLe a b = true)
        ((f.rows.filterMap (newsKey f.hasStock)).dedup) ↔
      ∃ r ∈ f.rows, newsKey f.hasStock r = some kk := by
  rw [(List.perm_insertionSort _ _).mem_iff, List.mem_dedup, List.mem_filterMap]

/-- C6: aggregate_daily_sentiment groups a non-empty input by the
calendar day of the coerced date column — and additionally by the
stock column when present, by day alone otherwise — and each output
avg value is the arithmetic mean (sum over count) of the requested
column over that group's rows; conversely every row with a parseable
day lands in some group. -/
theorem C6_aggregate_daily_mean_by_group :
    ∀ (f : NewsFrame) (requested : List String), f.rows ≠ [] →
      (∀ xs : List ℚ, qMean xs = xs.sum / xs.length) ∧
      (∀ g ∈ (aggregate_daily_sentiment f requested).rows, ∃ d : ℤ,
        g.date = RawDate.ts (d : ℚ) ∧
        (f.rows.filter (fun r => decide (newsDay r = some d) &&
            (if f.hasStock then decide (r.stock = g.stock) else true))) ≠ [] ∧
        g.vals = requested.map (fun c => qMean
          ((f.rows.filter (fun r => decide (newsDay r = some d) &&
            (if f.hasStock then decide (r.stock = g.stock) else true))).map
            (fun r => scoreAt f.scoreNames r c)))) ∧
      (∀ r ∈ f.rows, ∀ d : ℤ, newsDay r = some d →
        ∃ g ∈ (aggregate_daily_sentiment f requested).rows,
          g.date = RawDate.ts (d : ℚ) ∧ (f.hasStock = true → g.stock = r.stock)) := by
  intro f requested hne
  have hempty : f.rows.isEmpty = false := by
    cases hr : f.rows with
    | nil => exact absurd hr hne
    | cons a t => rfl
  have hrows : (aggregate_daily_sentiment f requested).rows =
      (List.insertionSort (fun a b => keyLe a b = true)
        ((f.rows.filterMap (newsKey f.hasStock)).dedup)).map (fun kk =>
          ⟨RawDate.ts (kk.1 : ℚ), kk.2, requested.map (fun c =>
            qMean ((f.rows.filter (fun r => newsKey f.hasStock r = some kk)).map
              (fun r => scoreAt f.scoreNames r c)))⟩) := by
    unfold aggregate_daily_sentiment
    rw [if_neg (by simp [hempty])]
  refine ⟨fun xs => rfl, ?_, ?_⟩
  · intro g hg
    rw [hrows] at hg
    rcases List.mem_map.mp hg with ⟨kk, hkmem, hgk⟩
    rcases (agg_mem_keys f kk).mp hkmem with ⟨r0, hr0, hk0⟩
    have hks : f.hasStock = false → kk.2 = "" := by
      intro hfs
      rcases (newsKey_eq_some_iff f.hasStock r0 kk.1 kk.2).mp hk0 with ⟨-, h2⟩
      rw [hfs] at h2
      simpa using h2
    refine ⟨kk.1, ?_, ?_, ?_⟩
    · rw [← hgk]
    · have hgstock : g.stock = kk.2 := by rw [← hgk]
      rw [hgstock, ← agg_group_filter_eq f kk.1 kk.2 hks]
      intro hnil
      have : r0 ∈ f.rows.filter (fun r => newsKey f.hasStock r = some (kk.1, kk.2)) :=
        List.mem_filter.mpr ⟨hr0, by simpa using hk0⟩
      rw [hnil] at this
      exact absurd this (List.not_mem_nil r0)
    · have hgstock : g.stock = kk.2 := by rw [← hgk]
      have hgvals : g.vals = requested.map (fun c =>
          qMean ((f.rows.filter (fun r => newsKey f.hasStock r = some kk)).map
            (fun r => scoreAt f.scoreNames r c))) := by rw [← hgk]
      rw [hgvals, hgstock]
      rw [show (some kk : Option (ℤ × String)) = some (kk.1, kk.2) by rfl]
      rw [agg_group_filter_eq f kk.1 kk.2 hks]
  · intro r hr d hd
    have hk : newsKey f.hasStock r = some (d, if f.hasStock then r.stock else "") := by
      rw [newsKey_eq_some_iff]
      refine ⟨hd, ?_⟩
      cases f.hasStock <;> simp
    refine ⟨⟨RawDate.ts ((d : ℚ)), if f.hasStock then r.stock else "",
        requested.map (fun c => qMean ((f.rows.filter (fun rr =>
          newsKey f.hasStock rr = some (d, if f.hasStock then r.stock else ""))).map
            (fun rr => scoreAt f.scoreNames rr c)))⟩, ?_, rfl, ?_⟩
    · rw [hrows]
      exact List.mem_map.mpr ⟨(d, if f.hasStock then r.stock else ""),
        (agg_mem_keys f _).mpr ⟨r, hr, hk⟩, rfl⟩
    · intro hfs
      simp [hfs]

/-- C6 witness: two same-day rows and one later row of one stock,
averaged per day. -/
theorem C6_aggregate_daily_mean_by_group_witness :
    (⟨true, ["polarity"], [⟨RawDate.ts 0, "A", [1]⟩, ⟨RawDate.ts (1 / 2), "A", [2]⟩]⟩
        : NewsFrame).rows ≠ [] ∧
    (∀ r ∈ (⟨true, ["polarity"], [⟨RawDate.ts 0, "A", [1]⟩,
        ⟨RawDate.ts (1 / 2), "A", [2]⟩]⟩ : NewsFrame).rows, ∀ d : ℤ,
      newsDay r = some d →
      ∃ g ∈ (aggregate_daily_sentiment ⟨true, ["polarity"],
          [⟨RawDate.ts 0, "A", [1]⟩, ⟨RawDate.ts (1 / 2), "A", [2]⟩]⟩ ["polarity"]).rows,
        g.date = RawDate.ts (d : ℚ) ∧ (true = true → g.stock = r.stock)) := by
  have hne : (⟨true, ["polarity"], [⟨RawDate.ts 0, "A", [1]⟩,
      ⟨RawDate.ts (1 / 2), "A", [2]⟩]⟩ : NewsFrame).rows ≠ [] := by
    intro h
    exact List.noConfusion h
  refine ⟨hne, ?_⟩
  have h := (C6_aggregate_daily_mean_by_group ⟨true, ["polarity"],
    [⟨RawDate.ts 0, "A", [1]⟩, ⟨RawDate.ts (1 / 2), "A", [2]⟩]⟩ ["polarity"] hne).2.2
  exact h

/-- The nearest earlier row (in the given row order) sharing the group
key of row i: the previous bar of the same ticker in the words of the
claim (the previous bar outright when no ticker column groups the
frame). -/
def prevSameKey (key : PriceRow → Option String) (l : List PriceRow) (i : ℕ) :
    Option PriceRow :=
  (l.take i).reverse.find? (fun x => key x = key (l.getD i ⟨RawDate.bad, 0, ""⟩))

lemma map_getD_range {α : Type} (l : List α) (d : α) :
    (List.range l.length).map (fun i => l.getD i d) = l := by
  apply List.ext_getElem
  · simp
  · intro i h1 h2
    rw [List.getElem_map, List.getElem_range,
      List.getD_eq_getElem?_getD, List.getElem?_eq_getElem h2]
    rfl

/-- Closed form of the grouped pct_change pass: row i is paired with
its percent change against the nearest earlier same-key row, the
accumulator holding the keyed closes of the rows already passed. -/
lemma pctChangeRows_closed (key : PriceRow → Option String) :
    ∀ (l : List PriceRow) (seen : List (Option String × ℚ)),
    pctChangeRows key l seen = (List.range l.length).map (fun i =>
      let r := l.getD i ⟨RawDate.bad, 0, ""⟩
      let hist := (l.take i).reverse.map (fun x => (key x, x.close)) ++ seen
      (r, ((hist.find? (fun p => p.1 = key r)).map Prod.snd).map
        (fun p => r.close / p - 1))) := by
  intro l
  induction l with
  | nil => intro seen; rfl
  | cons c t ih =>
      intro seen
      show (c, _) :: pctChangeRows key t ((key c, c.close) :: seen) = _
      rw [ih ((key c, c.close) :: seen)]
      rw [List.length_cons, List.range_succ_eq_map, List.map_cons, List.map_map]
      congr 1
      apply List.map_congr_left
      intro i _
      show _ = (let r := (c :: t).getD (i + 1) ⟨RawDate.bad, 0, ""⟩
        let hist := ((c :: t).take (i + 1)).reverse.map (fun x => (key x, x.close)) ++ seen
        (r, ((hist.find? (fun p => p.1 = key r)).map Prod.snd).map
          (fun p => r.close / p - 1)))
      have hget : (c :: t).getD (i + 1) ⟨RawDate.bad, 0, ""⟩ = t.getD i ⟨RawDate.bad, 0, ""⟩ := rfl
      have htake : ((c :: t).take (i + 1)).reverse.map (fun x => (key x, x.close)) ++ seen =
          (t.take i).reverse.map (fun x => (key x, x.close)) ++ ((key c, c.close) :: seen) := by
        rw [List.take_succ_cons, List.reverse_cons, List.map_append, List.append_assoc]
        rfl
      simp only [hget, htake]

/-- C7: compute_daily_returns keeps the date-sorted rows and pairs each
with the percent change of the close column: grouped per ticker when
the ticker column is present (each key is the row's ticker) and over
the whole frame otherwise (one shared key); a row with no earlier
same-key bar gets a null daily_return, every other row gets its close
over the previous same-key close, minus one. -/
theorem C7_compute_daily_returns_pct_change :
    ∀ (f : PriceFrame),
      ((compute_daily_returns f).rows.map Prod.fst = sortByDate f.rows) ∧
      ((compute_daily_returns f).hasTicker = f.hasTicker) ∧
      (∀ r : PriceRow, priceKey true r = some r.ticker) ∧
      (∀ r : PriceRow, priceKey false r = none) ∧
      (∀ i, i < (compute_daily_returns f).rows.length →
        ((compute_daily_returns f).rows.getD i (⟨RawDate.bad, 0, ""⟩, none)).2 =
          (prevSameKey (priceKey f.hasTicker) (sortByDate f.rows) i).map
            (fun prev =>
              ((sortByDate f.rows).getD i ⟨RawDate.bad, 0, ""⟩).close / prev.close - 1)) := by
  intro f
  have hclosed : (compute_daily_returns f).rows =
      (List.range (sortByDate f.rows).length).map (fun i =>
        let r := (sortByDate f.rows).getD i ⟨RawDate.bad, 0, ""⟩
        let hist := ((sortByDate f.rows).take i).reverse.map
          (fun x => (priceKey f.hasTicker x, x.close)) ++ []
        (r, ((hist.find? (fun p => p.1 = priceKey f.hasTicker r)).map Prod.snd).map
          (fun p => r.close / p - 1))) := by
    show pctChangeRows (priceKey f.hasTicker) (sortByDate f.rows) [] = _
    rw [pctChangeRows_closed]
  refine ⟨?_, rfl, fun r => rfl, fun r => rfl, ?_⟩
  · rw [hclosed, List.map_map]
    exact map_getD_range (sortByDate f.rows) ⟨RawDate.bad, 0, ""⟩
  · intro i hi
    have hlen : i < (sortByDate f.rows).length := by
      rw [hclosed] at hi
      simpa using hi
    rw [hclosed, List.getD_eq_getElem?_getD, List.getElem?_map,
      List.getElem?_range hlen]
    show (((((sortByDate f.rows).take i).reverse.map
        (fun x => (priceKey f.hasTicker x, x.close)) ++ []).find?
          (fun p : Option String × ℚ => p.1 = priceKey f.hasTicker
            ((sortByDate f.rows).getD i ⟨RawDate.bad, 0, ""⟩))).map Prod.snd).map
        (fun p => ((sortByDate f.rows).getD i ⟨RawDate.bad, 0, ""⟩).close / p - 1) = _
    rw [List.append_nil, List.find?_map, Option.map_map, Option.map_map]
    rfl

/-- C7 witness: two bars of one ticker — the second return is the
percent change against the first close. -/
theorem C7_compute_daily_returns_pct_change_witness :
    (1 < (compute_daily_returns ⟨true, [⟨RawDate.ts 0, 100, "T"⟩,
        ⟨RawDate.ts 1, 102, "T"⟩]⟩).rows.length) ∧
    ((compute_daily_returns ⟨true, [⟨RawDate.ts 0, 100, "T"⟩,
        ⟨RawDate.ts 1, 102, "T"⟩]⟩).rows.getD 1 (⟨RawDate.bad, 0, ""⟩, none)).2 =
      (prevSameKey (priceKey true) (sortByDate [⟨RawDate.ts 0, 100, "T"⟩,
          ⟨RawDate.ts 1, 102, "T"⟩]) 1).map
        (fun prev =>
          ((sortByDate [⟨RawDate.ts 0, 100, "T"⟩, ⟨RawDate.ts 1, 102, "T"⟩]).getD 1
            ⟨RawDate.bad, 0, ""⟩).close / prev.close - 1) := by
  have hlen : (compute_daily_returns ⟨true, [⟨RawDate.ts 0, 100, "T"⟩,
      ⟨RawDate.ts 1, 102, "T"⟩]⟩).rows.length = 2 := by
    show (pctChangeRows (priceKey true) (sortByDate _) []).length = 2
    norm_num [sortByDate, List.insertionSort, List.orderedInsert, rawDateLeB,
      pctChangeRows]
  refine ⟨by rw [hlen]; norm_num, ?_⟩
  exact (C7_compute_daily_returns_pct_change ⟨true, [⟨RawDate.ts 0, 100, "T"⟩,
    ⟨RawDate.ts 1, 102, "T"⟩]⟩).2.2.2.2 1 (by rw [hlen]; norm_num)

/-- Appending a fresh column adds exactly that name at the end. -/
lemma Frame.names_setCol_fresh (f : Frame) (n : String) (v : List Cell)
    (h : ¬ n ∈ f.names) : (f.setCol n v).names = f.names ++ [n] := by
  rw [Frame.names_setCol, if_neg]
  intro hc
  exact h ((Frame.any_name_iff f n).mp hc)

/-- C8 (amended): add_moving_average computes the min_periods-1 rolling
mean of the price column as column ma_w: at every row i the value is
the arithmetic mean of the price column over rows max(0, i-w+1)
through i (that slice having min w (i+1) rows: full windows once
available, partial before); the column is appended as exactly one new
column when the name ma_w is not already present — an existing ma_w
column is overwritten in place instead — and every other column is
unchanged. -/
theorem C8_add_moving_average_rolling_mean :
    ∀ (f : Frame) (w : ℕ) (pcol : String), 1 ≤ w →
      ((add_moving_average f w pcol).col ("ma_" ++ toString w) =
        rollingMean w 1 (f.col pcol)) ∧
      (∀ (ps : List ℚ), f.col pcol = ps.map Cell.num → ∀ i, i < ps.length →
        ((add_moving_average f w pcol).col ("ma_" ++ toString w)).getD i Cell.null =
          Cell.num (qMean ((ps.take (i + 1)).drop (i + 1 - w))) ∧
        ((ps.take (i + 1)).drop (i + 1 - w)).length = min w (i + 1)) ∧
      (¬ ("ma_" ++ toString w) ∈ f.names →
        (add_moving_average f w pcol).names = f.names ++ ["ma_" ++ toString w] ∧
        ∀ c, c ≠ ("ma_" ++ toString w) →
          (add_moving_average f w pcol).col c = f.col c) := by
  intro f w pcol hw
  have hcol : (add_moving_average f w pcol).col ("ma_" ++ toString w) =
      rollingMean w 1 (f.col pcol) :=
    Frame.col_setCol_self f ("ma_" ++ toString w) (rollingMean w 1 (f.col pcol))
  refine ⟨hcol, ?_, ?_⟩
  · intro ps hps i hi
    have hslice : ((ps.take (i + 1)).drop (i + 1 - w)).length = min w (i + 1) := by
      rw [List.length_drop, List.length_take, Nat.min_eq_left (by omega)]
      rcases Nat.le_total w (i + 1) with h | h
      · rw [Nat.min_eq_left h]
        omega
      · rw [Nat.min_eq_right h]
        omega
    refine ⟨?_, hslice⟩
    rw [hcol, hps]
    unfold rollingMean
    rw [List.getD_eq_getElem?_getD, List.getElem?_map,
      List.getElem?_range (by simpa using hi)]
    have hwindow : windowSlice w (ps.map Cell.num) i =
        ((ps.take (i + 1)).drop (i + 1 - w)).map Cell.num := by
      unfold windowSlice
      rw [← List.map_take, ← List.map_drop]
    have hvals : (windowSlice w (ps.map Cell.num) i).filterMap Cell.toNum =
        (ps.take (i + 1)).drop (i + 1 - w) := by
      rw [hwindow, List.filterMap_map]
      have : ∀ q : ℚ, (Cell.toNum ∘ Cell.num) q = some q := fun q => rfl
      rw [List.filterMap_congr (fun q _ => this q)]
      exact List.filterMap_some _
    have hlpos : 0 < ((ps.take (i + 1)).drop (i + 1 - w)).length := by
      rw [hslice]
      exact lt_min (by omega) (by omega)
    have hred : ∀ (g : ℕ → Cell) (j : ℕ), (Option.map g (some j)).getD Cell.null = g j :=
      fun g j => rfl
    rw [hred]
    dsimp only
    rw [hvals, if_pos ⟨hlpos, List.length_pos.mp hlpos⟩]
  · intro hfresh
    refine ⟨Frame.names_setCol_fresh f _ _ hfresh, ?_⟩
    intro c hc
    exact Frame.col_setCol_ne f _ c _ hc

/-- C8 counterexample: on a frame already carrying a column named ma_1,
add_moving_average adds no column at all — it overwrites the existing
ma_1 values in place — refuting the claim that for every input frame
exactly one new column is added. -/
theorem C8_add_moving_average_counterexample :
    ((add_moving_average ⟨[("close", [Cell.num 1]), ("ma_1", [Cell.num 99])]⟩
        1 "close").names = ["close", "ma_1"]) ∧
    (⟨[("close", [Cell.num 1]), ("ma_1", [Cell.num 99])]⟩ : Frame).names =
      ["close", "ma_1"] ∧
    ((add_moving_average ⟨[("close", [Cell.num 1]), ("ma_1", [Cell.num 99])]⟩
        1 "close").names ≠
      (⟨[("close", [Cell.num 1]), ("ma_1", [Cell.num 99])]⟩ : Frame).names ++ ["ma_1"]) ∧
    ((add_moving_average ⟨[("close", [Cell.num 1]), ("ma_1", [Cell.num 99])]⟩
        1 "close").col "ma_1" = [Cell.num 1]) ∧
    ((⟨[("close", [Cell.num 1]), ("ma_1", [Cell.num 99])]⟩ : Frame).col "ma_1" =
      [Cell.num 99]) ∧
    ((add_moving_average ⟨[("close", [Cell.num 1]), ("ma_1", [Cell.num 99])]⟩
        1 "close").col "ma_1" ≠
      (⟨[("close", [Cell.num 1]), ("ma_1", [Cell.num 99])]⟩ : Frame).col "ma_1") := by
  have hroll : rollingMean 1 1 (Frame.col
      ⟨[("close", [Cell.num 1]), ("ma_1", [Cell.num 99])]⟩ "close") = [Cell.num 1] := by
    have hc : Frame.col ⟨[("close", [Cell.num 1]), ("ma_1", [Cell.num 99])]⟩ "close" =
        [Cell.num 1] := by
      unfold Frame.col
      rw [List.find?_cons_of_pos _ (by decide)]
      rfl
    rw [hc]
    have hfm : List.filterMap Cell.toNum (windowSlice 1 [Cell.num 1] 0) = [1] := rfl
    unfold rollingMean
    rw [show ([Cell.num 1] : List Cell).length = 1 from rfl,
      show List.range 1 = [0] from rfl, List.map_cons, List.map_nil]
    dsimp only
    rw [hfm]
    norm_num [qMean, List.sum_cons, List.sum_nil]
  have hout : add_moving_average ⟨[("close", [Cell.num 1]), ("ma_1", [Cell.num 99])]⟩
      1 "close" = ⟨[("close", [Cell.num 1]), ("ma_1", [Cell.num 1])]⟩ := by
    unfold add_moving_average
    rw [hroll]
    unfold Frame.setCol
    rw [if_pos (by decide)]
    rfl
  rw [hout]
  refine ⟨rfl, rfl, by decide, ?_, ?_, ?_⟩
  · unfold Frame.col
    rw [List.find?_cons_of_neg _ (by decide), List.find?_cons_of_pos _ (by decide)]
    rfl
  · unfold Frame.col
    rw [List.find?_cons_of_neg _ (by decide), List.find?_cons_of_pos _ (by decide)]
    rfl
  · unfold Frame.col
    rw [List.find?_cons_of_neg _ (by decide), List.find?_cons_of_pos _ (by decide),
      List.find?_cons_of_neg _ (by decide), List.find?_cons_of_pos _ (by decide)]
    decide

/-- C8 witness: the amended theorem evaluated at a two-price frame with
window 2 — the second entry of ma_2 is the mean of both prices. -/
theorem C8_add_moving_average_rolling_mean_witness :
    (1 ≤ 2) ∧
    (∀ (ps : List ℚ),
      Frame.col ⟨[("close", [Cell.num 3, Cell.num 5])]⟩ "close" = ps.map Cell.num →
      ∀ i, i < ps.length →
      ((add_moving_average ⟨[("close", [Cell.num 3, Cell.num 5])]⟩ 2 "close").col
          ("ma_" ++ toString 2)).getD i Cell.null =
        Cell.num (qMean ((ps.take (i + 1)).drop (i + 1 - 2))) ∧
      ((ps.take (i + 1)).drop (i + 1 - 2)).length = min 2 (i + 1)) :=
  ⟨by decide,
    (C8_add_moving_average_rolling_mean ⟨[("close", [Cell.num 3, Cell.num 5])]⟩
      2 "close" (by decide)).2.1⟩

/-- Appending different suffixes to one stem gives different names. -/
lemma string_append_right_ne (s a b : String) (hab : a ≠ b) : s ++ a ≠ s ++ b := by
  intro h
  have hd := congrArg String.data h
  rw [String.data_append, String.data_append] at hd
  exact hab (String.ext (List.append_cancel_left hd))

/-- Appending one suffix to different same-length stems gives different
names. -/
lemma string_append_left_ne (a b t : String) (hlen : a.data.length = b.data.length)
    (hab : a ≠ b) : a ++ t ≠ b ++ t := by
  intro h
  have hd := congrArg String.data h
  rw [String.data_append, String.data_append] at hd
  exact hab (String.ext (List.append_inj hd hlen).1)

/-- Appending one suffix to stems of different lengths gives different
names. -/
lemma string_append_left_ne_len (a b t : String)
    (hlen : a.data.length ≠ b.data.length) : a ++ t ≠ b ++ t := by
  intro h
  have hd := congrArg (fun s => s.data.length) h
  simp only [String.data_append, List.length_append] at hd
  omega

/-- Two fresh columns set in sequence are appended in order, all other
columns unchanged. -/
lemma setCol2_fresh (f : Frame) (n1 n2 : String) (v1 v2 : List Cell)
    (h1 : ¬ n1 ∈ f.names) (h2 : ¬ n2 ∈ f.names) (h12 : n1 ≠ n2) :
    ((f.setCol n1 v1).setCol n2 v2).names = f.names ++ [n1, n2] ∧
    (∀ c ∈ f.names, ((f.setCol n1 v1).setCol n2 v2).col c = f.col c) := by
  have hn1 : (f.setCol n1 v1).names = f.names ++ [n1] :=
    Frame.names_setCol_fresh f n1 v1 h1
  have h2b : ¬ n2 ∈ (f.setCol n1 v1).names := by
    rw [hn1]
    intro hmem
    rcases List.mem_append.mp hmem with hmem | hmem
    · exact h2 hmem
    · exact h12 (List.mem_singleton.mp hmem).symm
  constructor
  · rw [Frame.names_setCol_fresh _ n2 v2 h2b, hn1, List.append_assoc]
    rfl
  · intro c hc
    have hc1 : c ≠ n1 := fun he => h1 (he ▸ hc)
    have hc2 : c ≠ n2 := fun he => h2 (he ▸ hc)
    rw [Frame.col_setCol_ne _ n2 c v2 hc2, Frame.col_setCol_ne _ n1 c v1 hc1]

/-- Three fresh columns set in sequence are appended in order, all
other columns unchanged. -/
lemma setCol3_fresh (f : Frame) (n1 n2 n3 : String) (v1 v2 v3 : List Cell)
    (h1 : ¬ n1 ∈ f.names) (h2 : ¬ n2 ∈ f.names) (h3 : ¬ n3 ∈ f.names)
    (h12 : n1 ≠ n2) (h13 : n1 ≠ n3) (h23 : n2 ≠ n3) :
    (((f.setCol n1 v1).setCol n2 v2).setCol n3 v3).names = f.names ++ [n1, n2, n3] ∧
    (∀ c ∈ f.names, (((f.setCol n1 v1).setCol n2 v2).setCol n3 v3).col c = f.col c) := by
  obtain ⟨hbn, hbc⟩ := setCol2_fresh f n1 n2 v1 v2 h1 h2 h12
  have h3b : ¬ n3 ∈ ((f.setCol n1 v1).setCol n2 v2).names := by
    rw [hbn]
    intro hmem
    rcases List.mem_append.mp hmem with hmem | hmem
    · exact h3 hmem
    · rcases List.mem_cons.mp hmem with hmem | hmem
      · exact h13 hmem.symm
      · exact h23 (List.mem_singleton.mp hmem).symm
  constructor
  · rw [Frame.names_setCol_fresh _ n3 v3 h3b, hbn, List.append_assoc]
    rfl
  · intro c hc
    have hc3 : c ≠ n3 := fun he => h3 (he ▸ hc)
    rw [Frame.col_setCol_ne _ n3 c v3 hc3, hbc c hc]

/-- Four fresh columns set in sequence are appended in order, all
other columns unchanged. -/
lemma setCol4_fresh (f : Frame) (n1 n2 n3 n4 : String) (v1 v2 v3 v4 : List Cell)
    (h1 : ¬ n1 ∈ f.names) (h2 : ¬ n2 ∈ f.names) (h3 : ¬ n3 ∈ f.names)
    (h4 : ¬ n4 ∈ f.names) (h12 : n1 ≠ n2) (h13 : n1 ≠ n3) (h14 : n1 ≠ n4)
    (h23 : n2 ≠ n3) (h24 : n2 ≠ n4) (h34 : n3 ≠ n4) :
    ((((f.setCol n1 v1).setCol n2 v2).setCol n3 v3).setCol n4 v4).names =
      f.names ++ [n1, n2, n3, n4] ∧
    (∀ c ∈ f.names,
      ((((f.setCol n1 v1).setCol n2 v2).setCol n3 v3).setCol n4 v4).col c = f.col c) := by
  obtain ⟨hbn, hbc⟩ := setCol3_fresh f n1 n2 n3 v1 v2 v3 h1 h2 h3 h12 h13 h23
  have h4b : ¬ n4 ∈ (((f.setCol n1 v1).setCol n2 v2).setCol n3 v3).names := by
    rw [hbn]
    intro hmem
    rcases List.mem_append.mp hmem with hmem | hmem
    · exact h4 hmem
    · rcases List.mem_cons.mp hmem with hmem | hmem
      · exact h14 hmem.symm
      · rcases List.mem_cons.mp hmem with hmem | hmem
        · exact h24 hmem.symm
        · exact h34 (List.mem_singleton.mp hmem).symm
  constructor
  · rw [Frame.names_setCol_fresh _ n4 v4 h4b, hbn, List.append_assoc]
    rfl
  · intro c hc
    have hc4 : c ≠ n4 := fun he => h4 (he ▸ hc)
    rw [Frame.col_setCol_ne _ n4 c v4 hc4, hbc c hc]

/-- C9 (amended): each enrichment helper returns a frame that appends
its computed columns and leaves every other column unchanged — for
every input frame in which the computed column names are not already
present (an existing column of a computed name is overwritten in place
instead, so the unconditional claim fails; see the counterexample).
compute_vader_sentiment derives its column names from the scored rows,
so on an empty text column it appends nothing and returns the frame
unchanged; its append clause therefore carries a non-empty
hypothesis. -/
theorem C9_enrichment_helpers_preserve_columns :
    ∀ (sq : ℚ → ℚ) (score : String → ℚ × ℚ) (vader : String → ℚ × ℚ × ℚ × ℚ)
      (f : Frame) (w fast slow signal : ℕ) (pcol tcol stem : String) (nstd : ℚ),
      (¬ ("ma_" ++ toString w) ∈ f.names →
        (add_moving_average f w pcol).names = f.names ++ ["ma_" ++ toString w] ∧
        ∀ c ∈ f.names, (add_moving_average f w pcol).col c = f.col c) ∧
      (¬ ("rsi_" ++ toString w) ∈ f.names →
        (add_rsi f w pcol).names = f.names ++ ["rsi_" ++ toString w] ∧
        ∀ c ∈ f.names, (add_rsi f w pcol).col c = f.col c) ∧
      (¬ "macd" ∈ f.names → ¬ "macd_signal" ∈ f.names → ¬ "macd_hist" ∈ f.names →
        (add_macd f pcol fast slow signal).names =
          f.names ++ ["macd", "macd_signal", "macd_hist"] ∧
        ∀ c ∈ f.names, (add_macd f pcol fast slow signal).col c = f.col c) ∧
      (¬ ("bb_mavg_" ++ toString w) ∈ f.names → ¬ ("bb_high_" ++ toString w) ∈ f.names →
        ¬ ("bb_low_" ++ toString w) ∈ f.names →
        (add_bollinger_bands sq f pcol w nstd).names =
          f.names ++ ["bb_mavg_" ++ toString w, "bb_high_" ++ toString w,
            "bb_low_" ++ toString w] ∧
        ∀ c ∈ f.names, (add_bollinger_bands sq f pcol w nstd).col c = f.col c) ∧
      (¬ ("volatility_" ++ toString w) ∈ f.names →
        (add_volatility sq f pcol w).names = f.names ++ ["volatility_" ++ toString w] ∧
        ∀ c ∈ f.names, (add_volatility sq f pcol w).col c = f.col c) ∧
      (¬ "polarity" ∈ f.names → ¬ "subjectivity" ∈ f.names →
        (compute_headline_sentiment score f tcol).names =
          f.names ++ ["polarity", "subjectivity"] ∧
        ∀ c ∈ f.names, (compute_headline_sentiment score f tcol).col c = f.col c) ∧
      ((f.col tcol = [] → compute_vader_sentiment vader f tcol stem = f) ∧
       (f.col tcol ≠ [] →
        ¬ (stem ++ "_neg") ∈ f.names → ¬ (stem ++ "_neu") ∈ f.names →
        ¬ (stem ++ "_pos") ∈ f.names → ¬ (stem ++ "_compound") ∈ f.names →
        (compute_vader_sentiment vader f tcol stem).names =
          f.names ++ [stem ++ "_neg", stem ++ "_neu", stem ++ "_pos",
            stem ++ "_compound"] ∧
        ∀ c ∈ f.names, (compute_vader_sentiment vader f tcol stem).col c = f.col c)) := by
  intro sq score vader f w fast slow signal pcol tcol stem nstd
  refine ⟨?_, ?_, ?_, ?_, ?_, ?_, ?_⟩
  · intro h1
    exact ⟨Frame.names_setCol_fresh f _ _ h1,
      fun c hc => Frame.col_setCol_ne f _ c _ (fun he => h1 (he ▸ hc))⟩
  · intro h1
    exact ⟨Frame.names_setCol_fresh f _ _ h1,
      fun c hc => Frame.col_setCol_ne f _ c _ (fun he => h1 (he ▸ hc))⟩
  · intro h1 h2 h3
    exact setCol3_fresh f "macd" "macd_signal" "macd_hist" _ _ _ h1 h2 h3
      (by decide) (by decide) (by decide)
  · intro h1 h2 h3
    exact setCol3_fresh f ("bb_mavg_" ++ toString w) ("bb_high_" ++ toString w)
      ("bb_low_" ++ toString w) _ _ _ h1 h2 h3
      (string_append_left_ne _ _ _ (by decide) (by decide))
      (string_append_left_ne_len _ _ _ (by decide))
      (string_append_left_ne_len _ _ _ (by decide))
  · intro h1
    exact ⟨Frame.names_setCol_fresh f _ _ h1,
      fun c hc => Frame.col_setCol_ne f _ c _ (fun he => h1 (he ▸ hc))⟩
  · intro h1 h2
    unfold compute_headline_sentiment
    by_cases hfe : f.isEmpty
    · rw [if_pos hfe]
      exact setCol2_fresh f "polarity" "subjectivity" _ _ h1 h2 (by decide)
    · rw [if_neg hfe]
      exact setCol2_fresh f "polarity" "subjectivity" _ _ h1 h2 (by decide)
  · constructor
    · intro hcol
      unfold compute_vader_sentiment
      rw [if_pos (by rw [hcol]; rfl)]
    · intro hcol h1 h2 h3 h4
      unfold compute_vader_sentiment
      rw [if_neg (by simp [List.isEmpty_iff, hcol])]
      exact setCol4_fresh f (stem ++ "_neg") (stem ++ "_neu") (stem ++ "_pos")
        (stem ++ "_compound") _ _ _ _ h1 h2 h3 h4
        (string_append_right_ne _ _ _ (by decide))
        (string_append_right_ne _ _ _ (by decide))
        (string_append_right_ne _ _ _ (by decide))
        (string_append_right_ne _ _ _ (by decide))
        (string_append_right_ne _ _ _ (by decide))
        (string_append_right_ne _ _ _ (by decide))

/-- C9 counterexample: on a frame already carrying a polarity column,
compute_headline_sentiment does not leave that pre-existing column
unchanged — it overwrites its values in place — refuting the claim for
arbitrary input frames. -/
theorem C9_copy_on_write_counterexample :
    "polarity" ∈ (⟨[("headline", [Cell.str "x"]), ("polarity", [Cell.num 5])]⟩
        : Frame).names ∧
    (compute_headline_sentiment (fun _ => (0, 0))
        ⟨[("headline", [Cell.str "x"]), ("polarity", [Cell.num 5])]⟩).col "polarity" =
      [Cell.num 0] ∧
    (⟨[("headline", [Cell.str "x"]), ("polarity", [Cell.num 5])]⟩ : Frame).col
        "polarity" = [Cell.num 5] ∧
    (compute_headline_sentiment (fun _ => (0, 0))
        ⟨[("headline", [Cell.str "x"]), ("polarity", [Cell.num 5])]⟩).col "polarity" ≠
      (⟨[("headline", [Cell.str "x"]), ("polarity", [Cell.num 5])]⟩ : Frame).col
        "polarity" := by
  refine ⟨by decide, ?_, by decide, ?_⟩
  · decide
  · decide

/-- C9 witness: the amended preservation applied to a one-column price
frame and a fresh moving-average column. -/
theorem C9_enrichment_helpers_preserve_columns_witness :
    (¬ ("ma_" ++ toString 5) ∈ (⟨[("close", [Cell.num 1])]⟩ : Frame).names) ∧
    ((add_moving_average ⟨[("close", [Cell.num 1])]⟩ 5 "close").names =
      (⟨[("close", [Cell.num 1])]⟩ : Frame).names ++ ["ma_" ++ toString 5] ∧
    ∀ c ∈ (⟨[("close", [Cell.num 1])]⟩ : Frame).names,
      (add_moving_average ⟨[("close", [Cell.num 1])]⟩ 5 "close").col c =
        (⟨[("close", [Cell.num 1])]⟩ : Frame).col c) :=
  ⟨by decide,
    (C9_enrichment_helpers_preserve_columns id (fun _ => (0, 0))
      (fun _ => (0, 0, 0, 0)) ⟨[("close", [Cell.num 1])]⟩ 5 12 26 9
      "close" "headline" "vader" 2).1 (by decide)⟩

lemma cell_toNum_some (c : Cell) (v : ℚ) : c.toNum = some v ↔ c = Cell.num v := by
  cases c <;> simp [Cell.toNum]

lemma length_ewmMeanAux (a : ℚ) :
    ∀ (xs : List Cell) (carry : Option ℚ), (ewmMeanAux a carry xs).length = xs.length := by
  intro xs
  induction xs with
  | nil => intro carry; rfl
  | cons x t ih =>
      intro carry
      show (_ :: ewmMeanAux a _ t).length = _
      rw [List.length_cons, List.length_cons, ih]

lemma length_diffCells (xs : List Cell) : (diffCells xs).length = xs.length := by
  cases xs with
  | nil => rfl
  | cons x t =>
      show (Cell.null :: ((x :: t).zip t).map _).length = _
      rw [List.length_cons, List.length_map, List.length_zip]
      simp

lemma length_rsiAvgGain (w : ℕ) (xs : List Cell) :
    (rsiAvgGain w xs).length = xs.length := by
  unfold rsiAvgGain ewmMean clipLower0
  rw [length_ewmMeanAux, List.length_map, length_diffCells]

lemma length_rsiAvgLoss (w : ℕ) (xs : List Cell) :
    (rsiAvgLoss w xs).length = xs.length := by
  unfold rsiAvgLoss ewmMean negClipUpper0
  rw [length_ewmMeanAux, List.length_map, length_diffCells]

/-- One EWMA step out of a nonnegative state on a nonnegative-or-null
cell keeps both the emitted cell and the carried mean nonnegative. -/
lemma ewmStep_nonneg (a : ℚ) (ha0 : 0 ≤ a) (ha1 : a ≤ 1) (carry : Option ℚ) (x : Cell)
    (hcarry : ∀ v, carry = some v → 0 ≤ v) (hx : ∀ v, x = Cell.num v → 0 ≤ v) :
    (∀ v, (ewmStep a carry x).1 = some v → 0 ≤ v) ∧
    (∀ v, (ewmStep a carry x).2 = Cell.num v → 0 ≤ v) := by
  unfold ewmStep
  cases hxc : x.toNum with
  | none =>
      constructor
      · intro v hv
        exact hcarry v hv
      · intro v hv
        cases hcv : carry with
        | none =>
            rw [hcv] at hv
            exact absurd hv (by simp [cellOfOpt])
        | some y =>
            rw [hcv] at hv
            simp only [cellOfOpt, Cell.num.injEq] at hv
            exact hv ▸ hcarry y hcv
  | some q =>
      have hq : 0 ≤ q := hx q ((cell_toNum_some x q).mp hxc)
      cases hcv : carry with
      | none => exact ⟨fun v hv => by simp at hv; exact hv ▸ hq,
          fun v hv => by simp at hv; exact hv ▸ hq⟩
      | some y =>
          have hy : 0 ≤ y := hcarry y hcv
          have hval : 0 ≤ (1 - a) * y + a * q :=
            add_nonneg (mul_nonneg (by linarith) hy) (mul_nonneg ha0 hq)
          exact ⟨fun v hv => by simp at hv; exact hv ▸ hval,
            fun v hv => by simp at hv; exact hv ▸ hval⟩

/-- The EWMA of nonnegative-or-null cells is nonnegative-or-null. -/
lemma ewmMeanAux_nonneg (a : ℚ) (ha0 : 0 ≤ a) (ha1 : a ≤ 1) :
    ∀ (xs : List Cell) (carry : Option ℚ),
      (∀ v, carry = some v → 0 ≤ v) →
      (∀ c ∈ xs, ∀ v, c = Cell.num v → 0 ≤ v) →
      ∀ c ∈ ewmMeanAux a carry xs, ∀ v, c = Cell.num v → 0 ≤ v := by
  intro xs
  induction xs with
  | nil =>
      intro carry _ _ c hc
      exact absurd hc (by simp [ewmMeanAux])
  | cons x t ih =>
      intro carry hcarry hxs c hc
      have hx : ∀ v, x = Cell.num v → 0 ≤ v :=
        fun v hv => hxs x (List.mem_cons_self x t) v hv
      obtain ⟨hstep1, hstep2⟩ := ewmStep_nonneg a ha0 ha1 carry x hcarry hx
      rw [show ewmMeanAux a carry (x :: t) =
        (ewmStep a carry x).2 :: ewmMeanAux a (ewmStep a carry x).1 t from rfl] at hc
      rcases List.mem_cons.mp hc with hc | hc
      · intro v hv
        exact hstep2 v (hc ▸ hv)
      · exact ih (ewmStep a carry x).1 hstep1
          (fun c2 hc2 => hxs c2 (List.mem_cons_of_mem x hc2)) c hc

lemma clipLower0_nonneg (xs : List Cell) :
    ∀ c ∈ clipLower0 xs, ∀ v, c = Cell.num v → 0 ≤ v := by
  intro c hc v hv
  rcases List.mem_map.mp hc with ⟨c0, -, hc0⟩
  rw [← hc0] at hv
  cases hn : c0.toNum with
  | none => rw [hn] at hv; exact absurd hv (by simp)
  | some a =>
      rw [hn] at hv
      simp only [Cell.num.injEq] at hv
      rw [← hv]
      exact le_max_right a 0

lemma negClipUpper0_nonneg (xs : List Cell) :
    ∀ c ∈ negClipUpper0 xs, ∀ v, c = Cell.num v → 0 ≤ v := by
  intro c hc v hv
  rcases List.mem_map.mp hc with ⟨c0, -, hc0⟩
  rw [← hc0] at hv
  cases hn : c0.toNum with
  | none => rw [hn] at hv; exact absurd hv (by simp)
  | some a =>
      rw [hn] at hv
      simp only [Cell.num.injEq] at hv
      rw [← hv]
      simp only [neg_nonneg]
      exact min_le_right a 0

lemma alpha_bounds (w : ℕ) (hw : 1 ≤ w) :
    0 ≤ (1 : ℚ) / (w : ℚ) ∧ (1 : ℚ) / (w : ℚ) ≤ 1 := by
  have hwpos : (0 : ℚ) < (w : ℚ) := by exact_mod_cast hw
  constructor
  · positivity
  · rw [div_le_one hwpos]
    exact_mod_cast hw

lemma rsiAvgGain_nonneg (w : ℕ) (hw : 1 ≤ w) (xs : List Cell) :
    ∀ c ∈ rsiAvgGain w xs, ∀ v, c = Cell.num v → 0 ≤ v := by
  obtain ⟨ha0, ha1⟩ := alpha_bounds w hw
  exact ewmMeanAux_nonneg _ ha0 ha1 _ none (by simp) (clipLower0_nonneg _)

lemma rsiAvgLoss_nonneg (w : ℕ) (hw : 1 ≤ w) (xs : List Cell) :
    ∀ c ∈ rsiAvgLoss w xs, ∀ v, c = Cell.num v → 0 ≤ v := by
  obtain ⟨ha0, ha1⟩ := alpha_bounds w hw
  exact ewmMeanAux_nonneg _ ha0 ha1 _ none (by simp) (negClipUpper0_nonneg _)

/-- C10: add_rsi never divides by zero — the zero average loss is
replaced by null before the division (so the denominator series never
holds the zero cell, and a zero average loss yields a null rsi entry at
that row) — and for every positive window each non-null value of the
added rsi column lies in the closed interval [0, 100]. -/
theorem C10_add_rsi_guard_and_bounds :
    ∀ (f : Frame) (w : ℕ) (pcol : String), 1 ≤ w →
      ((replaceZeroNull (rsiAvgLoss w (f.col pcol))).all
        (fun c => decide (c ≠ Cell.num 0)) = true) ∧
      (∀ i, i < (f.col pcol).length →
        (rsiAvgLoss w (f.col pcol)).getD i Cell.null = Cell.num 0 →
        ((add_rsi f w pcol).col ("rsi_" ++ toString w)).getD i Cell.null = Cell.null) ∧
      (∀ c ∈ (add_rsi f w pcol).col ("rsi_" ++ toString w), ∀ v : ℚ,
        c = Cell.num v → 0 ≤ v ∧ v ≤ 100) := by
  intro f w pcol hw
  have hcol : (add_rsi f w pcol).col ("rsi_" ++ toString w) =
      rsiFromRs (divCells (rsiAvgGain w (f.col pcol))
        (replaceZeroNull (rsiAvgLoss w (f.col pcol)))) :=
    Frame.col_setCol_self f _ _
  refine ⟨?_, ?_, ?_⟩
  · rw [List.all_eq_true]
    intro c hc
    rcases List.mem_map.mp hc with ⟨c0, -, hc0⟩
    by_cases h0 : c0 = Cell.num 0
    · rw [if_pos h0] at hc0
      simp [← hc0]
    · rw [if_neg h0] at hc0
      simpa [← hc0] using h0
  · intro i hi hz
    set xs := f.col pcol with hxs
    have hllen : (rsiAvgLoss w xs).length = xs.length := length_rsiAvgLoss w xs
    have hglen : (rsiAvgGain w xs).length = xs.length := length_rsiAvgGain w xs
    have hil : i < (rsiAvgLoss w xs).length := by rw [hllen]; exact hi
    have hig : i < (rsiAvgGain w xs).length := by rw [hglen]; exact hi
    have hreplen : (replaceZeroNull (rsiAvgLoss w xs)).length = xs.length := by
      unfold replaceZeroNull
      rw [List.length_map, hllen]
    have hzer : (rsiAvgLoss w xs)[i] = Cell.num 0 := by
      rw [← List.getD_eq_getElem (rsiAvgLoss w xs) Cell.null hil]
      exact hz
    have hirep : i < (replaceZeroNull (rsiAvgLoss w xs)).length := by
      rw [hreplen]
      exact hi
    have hrep : (replaceZeroNull (rsiAvgLoss w xs))[i] = Cell.null := by
      unfold replaceZeroNull
      rw [List.getElem_map]
      rw [if_pos hzer]
    have hdivlen : (divCells (rsiAvgGain w xs) (replaceZeroNull (rsiAvgLoss w xs))).length =
        xs.length := by
      unfold divCells
      rw [List.length_map, List.length_zip, hglen, hreplen]
      simp
    have hidiv : i < (divCells (rsiAvgGain w xs) (replaceZeroNull (rsiAvgLoss w xs))).length := by
      rw [hdivlen]
      exact hi
    have hdiv : (divCells (rsiAvgGain w xs) (replaceZeroNull (rsiAvgLoss w xs)))[i] =
        Cell.null := by
      unfold divCells
      rw [List.getElem_map, List.getElem_zip]
      rw [hrep]
      cases hgn : ((rsiAvgGain w xs)[i]).toNum <;> rfl
    rw [hcol]
    unfold rsiFromRs
    rw [List.getD_eq_getElem _ Cell.null (by rw [List.length_map, hdivlen]; exact hi),
      List.getElem_map, hdiv]
    rfl
  · intro c hc v hv
    rw [hcol] at hc
    unfold rsiFromRs at hc
    rcases List.mem_map.mp hc with ⟨c0, hc0mem, hc0⟩
    rw [← hc0] at hv
    cases hn : c0.toNum with
    | none => rw [hn] at hv; exact absurd hv (by simp)
    | some r =>
        rw [hn] at hv
        simp only [Cell.num.injEq] at hv
        have hr : 0 ≤ r := by
          have hc0r : c0 = Cell.num r := (cell_toNum_some c0 r).mp hn
          rw [hc0r] at hc0mem
          unfold divCells at hc0mem
          rcases List.mem_map.mp hc0mem with ⟨⟨g, l⟩, hglmem, hgl⟩
          obtain ⟨hgmem, hlmem⟩ := List.of_mem_zip hglmem
          cases hgn : g.toNum with
          | none => rw [hgn] at hgl; exact absurd hgl (by simp)
          | some a =>
              cases hln : l.toNum with
              | none => rw [hgn, hln] at hgl; exact absurd hgl (by simp)
              | some b =>
                  rw [hgn, hln] at hgl
                  dsimp only at hgl
                  by_cases hb0 : b = 0
                  · rw [if_pos hb0] at hgl
                    exact absurd hgl (by simp)
                  · rw [if_neg hb0] at hgl
                    simp only [Cell.num.injEq] at hgl
                    have ha : 0 ≤ a :=
                      rsiAvgGain_nonneg w hw _ g hgmem a ((cell_toNum_some g a).mp hgn)
                    have hbpos : 0 < b := by
                      have hlrep : l = Cell.num b := (cell_toNum_some l b).mp hln
                      rw [hlrep] at hlmem
                      unfold replaceZeroNull at hlmem
                      rcases List.mem_map.mp hlmem with ⟨l0, hl0mem, hl0⟩
                      by_cases hl00 : l0 = Cell.num 0
                      · rw [if_pos hl00] at hl0
                        exact absurd hl0 (by simp)
                      · rw [if_neg hl00] at hl0
                        have hbn : 0 ≤ b := rsiAvgLoss_nonneg w hw _ l0 hl0mem b hl0
                        rcases lt_or_eq_of_le hbn with hlt | heq
                        · exact hlt
                        · exact absurd (heq ▸ hb0) (by simp)
                    rw [← hgl]
                    positivity
        have h1r : (0 : ℚ) < 1 + r := by linarith
        constructor
        · rw [← hv]
          have : 100 / (1 + r) ≤ 100 := by
            rw [div_le_iff₀ h1r]
            nlinarith
          linarith
        · rw [← hv]
          have : 0 ≤ 100 / (1 + r) := by positivity
          linarith

/-- C10 witness: a three-price frame with window 2 whose rsi column
holds the non-null value 200/3. -/
theorem C10_add_rsi_guard_and_bounds_witness :
    (1 ≤ 2) ∧
    (∀ c ∈ (add_rsi ⟨[("close", [Cell.num 1, Cell.num 3, Cell.num 2])]⟩ 2 "close").col
        ("rsi_" ++ toString 2), ∀ v : ℚ, c = Cell.num v → 0 ≤ v ∧ v ≤ 100) :=
  ⟨by decide,
    (C10_add_rsi_guard_and_bounds ⟨[("close", [Cell.num 1, Cell.num 3, Cell.num 2])]⟩
      2 "close" (by decide)).2.2⟩

end NSSM
